import Mathlib

/-!
Verification of the WA Copilot backend (Go) against its specification.

The development shallowly embeds the relevant parts of the Go sources:

* `internal/policy/hitl.go` — PII masking (regex substitution engine included),
  manual-only payload screening, content policy;
* `internal/quality` (output validator), `internal/context` (context builder);
* `internal/repository` (in-memory jobs repository), HTTP handler helpers;
* `internal/queue` (stream and local consumers), `internal/worker/processor.go`;
* `internal/service/ai_generation.go` (structured-job generation pipeline).

Modelling conventions:

* Go strings are modelled as `List Char` (`Str`); the repository only handles
  ASCII data in the places the claims touch, so `len` (bytes) coincides with
  list length and Unicode subtleties of `TrimSpace`/`Fields` do not arise.
* Go `float64` quality penalties/scores are exact multiples of 0.01, so they
  are modelled as integers counting hundredths (0.07 becomes 7, the score 1.0
  becomes 100); sums and threshold comparisons coincide exactly.  Retrieval
  scores are integer-valued as well and are modelled as `Int`.
* Fallible Go functions returning `error` are modelled with `Option`/`Except`.
* The Go standard library pieces used by the code (`regexp`, `encoding/json`)
  are modelled executably below, faithful to their documented semantics on the
  inputs at hand (leftmost-first matching, non-overlapping replacement,
  strict JSON grammar with trailing-data rejection, key-sorted object output).
-/

/-- Go strings, modelled as lists of characters. -/
abbrev Str := List Char

/-- Converts a Lean string literal to the `Str` model. -/
def lit (s : String) : Str := s.data

/-- ASCII lower-case letter test. -/
def isAsciiLower (c : Char) : Bool := 'a' ≤ c && c ≤ 'z'

/-- ASCII upper-case letter test. -/
def isAsciiUpper (c : Char) : Bool := 'A' ≤ c && c ≤ 'Z'

/-- Word character for the RE2 `\b` assertion: `[0-9A-Za-z_]`. -/
def isWordCh (c : Char) : Bool := isAsciiLower c || isAsciiUpper c || c.isDigit || c == '_'

/-- White-space class `\s` of Go regular expressions: `[\t\n\f\r ]`. -/
def perlSpace (c : Char) : Bool := c == '\t' || c == '\n' || c == '\x0c' || c == '\r' || c == ' '

/-- White space accepted by Go `unicode.IsSpace` restricted to ASCII, as used
by `strings.TrimSpace` and `strings.Fields`. -/
def goIsSpace (c : Char) : Bool :=
  c == ' ' || c == '\t' || c == '\n' || c == '\x0b' || c == '\x0c' || c == '\r'

/-- Model of Go `strings.TrimSpace`. -/
def trimSpace (s : Str) : Str :=
  ((s.dropWhile goIsSpace).reverse.dropWhile goIsSpace).reverse

/-- Model of Go `strings.ToLower` (ASCII case folding). -/
def toLowerStr (s : Str) : Str := s.map Char.toLower

/-- Accumulator-passing worker for `fieldsStr`. -/
def fieldsAux : Str → Str → List Str
  | [], acc => if acc.isEmpty then [] else [acc.reverse]
  | c :: rest, acc =>
    if goIsSpace c then
      if acc.isEmpty then fieldsAux rest [] else acc.reverse :: fieldsAux rest []
    else fieldsAux rest (c :: acc)

/-- Model of Go `strings.Fields`: splits around runs of white space. -/
def fieldsStr (s : Str) : List Str := fieldsAux s []

/-- Model of Go `strings.Join`. -/
def joinSep (sep : Str) : List Str → Str
  | [] => []
  | [x] => x
  | x :: xs => x ++ sep ++ joinSep sep xs

/-- Tests whether `p` is a leading segment of `s` (Go `strings.HasPrefix`). -/
def startsWith : Str → Str → Bool
  | _, [] => true
  | [], _ :: _ => false
  | c :: cs, d :: ds => c == d && startsWith cs ds

/-- Tests whether `p` is a trailing segment of `s` (Go `strings.HasSuffix`). -/
def endsWith (s p : Str) : Bool := startsWith s.reverse p.reverse

/-- Model of Go `strings.Contains`. -/
def containsSub : Str → Str → Bool
  | s, p => if startsWith s p then true else
      match s with
      | [] => false
      | _ :: rest => containsSub rest p

/-- Lexicographic byte-order comparison of Go strings. -/
def strLt : Str → Str → Bool
  | [], [] => false
  | [], _ :: _ => true
  | _ :: _, [] => false
  | c :: cs, d :: ds => if c == d then strLt cs ds else c < d

/-- Decimal rendering of a natural number. -/
def natToStr (n : Nat) : Str := Nat.toDigits 10 n

/-!
Regular-expression engine.

`internal/policy/hitl.go` masks PII with five `regexp` patterns.  The engine
below implements Go `regexp` semantics for the constructs those patterns use:
character classes, concatenation, greedy `?`, greedy and lazy counted
repetition, and the ASCII word-boundary assertion `\b`.  Matching is
backtracking leftmost-first (for these patterns this coincides with RE2), and
replacement scans for non-overlapping matches left to right against the
original string, exactly like `Regexp.ReplaceAllString`.  The interpreter is
fuel-indexed so that it is structurally recursive; the fuel passed at the top
level strictly dominates the recursion depth needed for these patterns.
-/

/-- Abstract syntax of the regular-expression fragment the masker uses. -/
inductive RE where
  | eps
  | cls (p : Char → Bool)
  | seq (a b : RE)
  | opt (a : RE)
  | rep (a : RE) (lo : Nat) (hi : Option Nat) (lazyRep : Bool)
  | wordB

/-- Word test on an optional character (text edge counts as non-word). -/
def isWordOpt : Option Char → Bool
  | none => false
  | some c => isWordCh c

/-- RE2 word boundary: the word-ness of the two surrounding characters differs. -/
def atBoundary (prev : Option Char) (s : Str) : Bool :=
  isWordOpt prev != isWordOpt s.head?

/-- Decrements an optional repetition bound. -/
def decMax : Option Nat → Option Nat
  | none => none
  | some 0 => some 0
  | some (n + 1) => some n

/-- Backtracking matcher in continuation-passing style.  `prev` is the
character just before the current position (for `\b`); the continuation
receives the updated previous character and the remaining input, and the
first continuation success is the overall result (leftmost-first order:
greedy parts prefer longer, lazy parts prefer shorter). -/
def reRun : Nat → RE → Option Char → Str → (Option Char → Str → Option Str) → Option Str
  | 0, _, _, _, _ => none
  | _ + 1, .eps, prev, s, k => k prev s
  | _ + 1, .cls p, _, s, k =>
    match s with
    | [] => none
    | c :: rest => if p c then k (some c) rest else none
  | fuel + 1, .seq a b, prev, s, k =>
    reRun fuel a prev s (fun p2 s2 => reRun fuel b p2 s2 k)
  | fuel + 1, .opt a, prev, s, k =>
    match reRun fuel a prev s k with
    | some r => some r
    | none => k prev s
  | fuel + 1, .rep a lo hi lz, prev, s, k =>
    match lo with
    | m + 1 => reRun fuel a prev s (fun p2 s2 => reRun fuel (.rep a m (decMax hi) lz) p2 s2 k)
    | 0 =>
      if hi == some 0 then k prev s
      else if lz then
        match k prev s with
        | some r => some r
        | none => reRun fuel a prev s (fun p2 s2 => reRun fuel (.rep a 0 (decMax hi) lz) p2 s2 k)
      else
        match reRun fuel a prev s (fun p2 s2 => reRun fuel (.rep a 0 (decMax hi) lz) p2 s2 k) with
        | some r => some r
        | none => k prev s
  | _ + 1, .wordB, prev, s, k =>
    if atBoundary prev s then k prev s else none

/-- Attempts a match anchored at the current position; returns the remaining
suffix after the match. -/
def matchHere (re : RE) (prev : Option Char) (s : Str) : Option Str :=
  reRun (4 * s.length + 64) re prev s (fun _ rem => some rem)

/-- Left-to-right scan replacing non-overlapping matches, keeping the original
characters between matches.  Mirrors `Regexp.ReplaceAllStringFunc`. -/
def scanRepF : Nat → RE → (Str → Str) → Option Char → Str → Str
  | 0, _, _, _, s => s
  | _ + 1, _, _, _, [] => []
  | fuel + 1, re, repl, prev, c :: rest =>
    match matchHere re prev (c :: rest) with
    | some rem =>
      let n := (c :: rest).length - rem.length
      if n == 0 then c :: scanRepF fuel re repl (some c) rest
      else
        let matched := (c :: rest).take n
        repl matched ++ scanRepF fuel re repl matched.getLast? rem
    | none => c :: scanRepF fuel re repl (some c) rest

/-- Model of Go `Regexp.ReplaceAllString` / `ReplaceAllStringFunc`. -/
def replaceAll (re : RE) (repl : Str → Str) (s : Str) : Str :=
  scanRepF (s.length + 1) re repl none s

/-- Concatenation of a pattern list. -/
def reCat (rs : List RE) : RE := rs.foldr RE.seq .eps

/-- Single-character literal pattern. -/
def reChar (c : Char) : RE := .cls (fun d => d == c)

/-- Pattern `\d` (ASCII digits, RE2 default). -/
def digitRE : RE := .cls (fun c => c.isDigit)

/-- Class `[a-z0-9._%+\-]` under `(?i)`. -/
def localCls (c : Char) : Bool :=
  isAsciiLower c || isAsciiUpper c || c.isDigit || c == '.' || c == '_' || c == '%' ||
    c == '+' || c == '-'

/-- Class `[a-z0-9.\-]` under `(?i)`. -/
def domainCls (c : Char) : Bool :=
  isAsciiLower c || isAsciiUpper c || c.isDigit || c == '.' || c == '-'

/-- Class `[a-z]` under `(?i)`. -/
def alphaCls (c : Char) : Bool := isAsciiLower c || isAsciiUpper c

/-- Class `[\d()\-\s.]` of the phone pattern. -/
def phoneCls (c : Char) : Bool :=
  c.isDigit || c == '(' || c == ')' || c == '-' || perlSpace c || c == '.'

/-- Class `[ -]` of the card pattern. -/
def dashSpaceCls (c : Char) : Bool := c == ' ' || c == '-'

/-- Pattern from hitl.go:
`(?i)\b[a-z0-9._%+\-]+@[a-z0-9.\-]+\.[a-z]{2,}\b`. -/
def emailRE : RE :=
  reCat [.wordB, .rep (.cls localCls) 1 none false, reChar '@',
    .rep (.cls domainCls) 1 none false, reChar '.', .rep (.cls alphaCls) 2 none false, .wordB]

/-- Pattern from hitl.go: `(?:\+?\d[\d()\-\s.]{7,}\d)`. -/
def phoneRE : RE :=
  reCat [.opt (reChar '+'), digitRE, .rep (.cls phoneCls) 7 none false, digitRE]

/-- Pattern from hitl.go: `\b\d{3}\.?\d{3}\.?\d{3}\-?\d{2}\b`. -/
def cpfRE : RE :=
  reCat [.wordB, .rep digitRE 3 (some 3) false, .opt (reChar '.'),
    .rep digitRE 3 (some 3) false, .opt (reChar '.'), .rep digitRE 3 (some 3) false,
    .opt (reChar '-'), .rep digitRE 2 (some 2) false, .wordB]

/-- Pattern from hitl.go: `\b\d{2}\.?\d{3}\.?\d{3}/?\d{4}\-?\d{2}\b`. -/
def cnpjRE : RE :=
  reCat [.wordB, .rep digitRE 2 (some 2) false, .opt (reChar '.'),
    .rep digitRE 3 (some 3) false, .opt (reChar '.'), .rep digitRE 3 (some 3) false,
    .opt (reChar '/'), .rep digitRE 4 (some 4) false, .opt (reChar '-'),
    .rep digitRE 2 (some 2) false, .wordB]

/-- Pattern from hitl.go: `\b(?:\d[ -]*?){13,16}\b`. -/
def cardRE : RE :=
  reCat [.wordB, .rep (.seq digitRE (.rep (.cls dashSpaceCls) 0 none true)) 13 (some 16) false,
    .wordB]

/-- Model of `maskCardNumber` in hitl.go. -/
def maskCardNumber (value : Str) : Str :=
  let digits := value.filter (fun c => c.isDigit)
  if digits.length < 8 then lit "[card_redacted]"
  else lit "**** **** **** " ++ digits.drop (digits.length - 4)

/-- Model of `policy.MaskPIIString`: the five substitutions applied in the
order of the source. -/
def maskPIIString (value : Str) : Str :=
  let m1 := replaceAll emailRE (fun _ => lit "[email_redacted]") value
  let m2 := replaceAll phoneRE (fun _ => lit "[phone_redacted]") m1
  let m3 := replaceAll cpfRE (fun _ => lit "***.***.***-**") m2
  let m4 := replaceAll cnpjRE (fun _ => lit "**.***.***/****-**") m3
  replaceAll cardRE maskCardNumber m4

/-!
JSON model.

The repository decodes opaque payloads with `encoding/json.Unmarshal` into
dynamic values and re-encodes them with `json.Marshal`.  `Json` is the
tagged-variant model of such decoded values; numbers keep their source
literal (the claims under verification never compute with numeric values).
The parser below follows the strict JSON grammar that `Unmarshal` accepts,
including the rejection of trailing non-space data; the printer follows
`Marshal` for the decoded dynamic values: object keys sorted bytewise (Go
maps marshal in sorted key order), strings escaped with the default
HTML-escaping behaviour.
-/

/-- Decoded JSON value. -/
inductive Json where
  | null
  | bool (b : Bool)
  | num (numLit : Str)
  | str (s : Str)
  | arr (xs : List Json)
  | obj (fs : List (Str × Json))

/-- JSON white space. -/
def jsonWS (c : Char) : Bool := c == ' ' || c == '\t' || c == '\n' || c == '\r'

/-- Drops leading JSON white space. -/
def skipWS (s : Str) : Str := s.dropWhile jsonWS

/-- Hexadecimal digit value. -/
def hexVal (c : Char) : Option Nat :=
  if c.isDigit then some (c.toNat - 48)
  else if 'a' ≤ c && c ≤ 'f' then some (c.toNat - 87)
  else if 'A' ≤ c && c ≤ 'F' then some (c.toNat - 55)
  else none

/-- Parses the body of a JSON string after the opening quote, handling the
escape sequences `Unmarshal` accepts and rejecting raw control characters. -/
def parseStringBody : Nat → Str → Str → Option (Str × Str)
  | 0, _, _ => none
  | fuel + 1, s, acc =>
    match s with
    | [] => none
    | '"' :: rest => some (acc.reverse, rest)
    | '\\' :: esc =>
      match esc with
      | '"' :: rest => parseStringBody fuel rest ('"' :: acc)
      | '\\' :: rest => parseStringBody fuel rest ('\\' :: acc)
      | '/' :: rest => parseStringBody fuel rest ('/' :: acc)
      | 'b' :: rest => parseStringBody fuel rest ('\x08' :: acc)
      | 'f' :: rest => parseStringBody fuel rest ('\x0c' :: acc)
      | 'n' :: rest => parseStringBody fuel rest ('\n' :: acc)
      | 'r' :: rest => parseStringBody fuel rest ('\r' :: acc)
      | 't' :: rest => parseStringBody fuel rest ('\t' :: acc)
      | 'u' :: h1 :: h2 :: h3 :: h4 :: rest =>
        match hexVal h1, hexVal h2, hexVal h3, hexVal h4 with
        | some a, some b, some c, some d =>
          let n := ((a * 16 + b) * 16 + c) * 16 + d
          if h : n.isValidChar then parseStringBody fuel rest (Char.ofNatAux n h :: acc)
          else none
        | _, _, _, _ => none
      | _ => none
    | c :: rest => if c.toNat < 32 then none else parseStringBody fuel rest (c :: acc)

/-- Parses a JSON number literal (sign, integer part, optional fraction and
exponent), returning the literal characters and the remainder. -/
def parseNumberLit (s : Str) : Option (Str × Str) :=
  let (sign, s1) :=
    match s with
    | '-' :: r => (['-'], r)
    | _ => (([] : Str), s)
  let intPart : Option (Str × Str) :=
    match s1 with
    | '0' :: r => some (['0'], r)
    | c :: r =>
      if c.isDigit && c != '0' then some (c :: r.takeWhile Char.isDigit, r.dropWhile Char.isDigit)
      else none
    | [] => none
  match intPart with
  | none => none
  | some (ip, s2) =>
    let (fp, s3) :=
      match s2 with
      | '.' :: d :: r =>
        if d.isDigit then
          ('.' :: d :: r.takeWhile Char.isDigit, r.dropWhile Char.isDigit)
        else (([] : Str), s2)
      | _ => (([] : Str), s2)
    if fp = [] && (match s2 with | '.' :: _ => true | _ => false) then none
    else
      let expPart : Option (Str × Str) :=
        match s3 with
        | e :: r =>
          if e == 'e' || e == 'E' then
            let (es, r2) :=
              match r with
              | '+' :: r2 => (['+'], r2)
              | '-' :: r2 => (['-'], r2)
              | _ => (([] : Str), r)
            match r2 with
            | d :: _ =>
              if d.isDigit then some (e :: es ++ r2.takeWhile Char.isDigit, r2.dropWhile Char.isDigit)
              else none
            | [] => none
          else some ([], s3)
        | [] => some ([], s3)
      match expPart with
      | none => none
      | some (ep, s4) => some (sign ++ ip ++ fp ++ ep, s4)

mutual

/-- Parses one JSON value after optional white space. -/
def parseValue : Nat → Str → Option (Json × Str)
  | 0, _ => none
  | fuel + 1, s =>
    match skipWS s with
    | [] => none
    | c :: rest =>
      if c == 'n' then
        if startsWith rest (lit "ull") then some (.null, rest.drop 3) else none
      else if c == 't' then
        if startsWith rest (lit "rue") then some (.bool true, rest.drop 3) else none
      else if c == 'f' then
        if startsWith rest (lit "alse") then some (.bool false, rest.drop 4) else none
      else if c == '"' then
        match parseStringBody (rest.length + 1) rest [] with
        | some (body, rem) => some (.str body, rem)
        | none => none
      else if c == '[' then
        match skipWS rest with
        | ']' :: rem => some (.arr [], rem)
        | _ => parseArrItems fuel rest []
      else if c == '{' then
        match skipWS rest with
        | '}' :: rem => some (.obj [], rem)
        | _ => parseObjItems fuel rest []
      else
        match parseNumberLit (c :: rest) with
        | some (numLit, rem) => some (.num numLit, rem)
        | none => none

/-- Parses the comma-separated items of a non-empty array. -/
def parseArrItems : Nat → Str → List Json → Option (Json × Str)
  | 0, _, _ => none
  | fuel + 1, s, acc =>
    match parseValue fuel s with
    | none => none
    | some (v, rem) =>
      match skipWS rem with
      | ',' :: rem2 => parseArrItems fuel rem2 (v :: acc)
      | ']' :: rem2 => some (.arr (v :: acc).reverse, rem2)
      | _ => none

/-- Parses the comma-separated members of a non-empty object. -/
def parseObjItems : Nat → Str → List (Str × Json) → Option (Json × Str)
  | 0, _, _ => none
  | fuel + 1, s, acc =>
    match skipWS s with
    | '"' :: rest =>
      match parseStringBody (rest.length + 1) rest [] with
      | none => none
      | some (key, rem) =>
        match skipWS rem with
        | ':' :: rem2 =>
          match parseValue fuel rem2 with
          | none => none
          | some (v, rem3) =>
            match skipWS rem3 with
            | ',' :: rem4 => parseObjItems fuel rem4 ((key, v) :: acc)
            | '}' :: rem4 => some (.obj ((key, v) :: acc).reverse, rem4)
            | _ => none
        | _ => none
    | _ => none

end

/-- Model of `json.Unmarshal` into a dynamic value: one value, then only
white space to the end of input.  The fuel strictly dominates the nesting
depth of any input of this length. -/
def parseTop (payload : Str) : Option Json :=
  match parseValue (2 * payload.length + 8) payload with
  | some (v, rem) => if skipWS rem = [] then some v else none
  | none => none

/-- Hexadecimal digit character for code points. -/
def hexDigitCh (n : Nat) : Char := if n < 10 then Char.ofNat (48 + n) else Char.ofNat (87 + n)

/-- Escapes one character the way `json.Marshal` renders it inside a string
(default HTML escaping). -/
def escapeJsonChar (c : Char) : Str :=
  if c == '"' then ['\\', '"']
  else if c == '\\' then ['\\', '\\']
  else if c == '\n' then ['\\', 'n']
  else if c == '\r' then ['\\', 'r']
  else if c == '\t' then ['\\', 't']
  else if c == '<' then lit "\\u003c"
  else if c == '>' then lit "\\u003e"
  else if c == '&' then lit "\\u0026"
  else if c.toNat < 32 then lit "\\u00" ++ [hexDigitCh (c.toNat / 16), hexDigitCh (c.toNat % 16)]
  else [c]

/-- Quotes and escapes a string for JSON output. -/
def quoteJson (s : Str) : Str := '"' :: s.foldr (fun c acc => escapeJsonChar c ++ acc) ['"']

/-- Inserts a key/value pair into a key-sorted field list. -/
def insertField (kv : Str × Json) : List (Str × Json) → List (Str × Json)
  | [] => [kv]
  | kv2 :: rest => if strLt kv.1 kv2.1 then kv :: kv2 :: rest else kv2 :: insertField kv rest

/-- Sorts object fields by key in byte order, as `json.Marshal` does for
Go maps. -/
def sortFields : List (Str × Json) → List (Str × Json)
  | [] => []
  | kv :: rest => insertField kv (sortFields rest)

mutual

/-- Recursively sorts all object field lists by key, mirroring the key order
`json.Marshal` uses for Go maps. -/
def sortJson : Json → Json
  | .null => .null
  | .bool b => .bool b
  | .num l => .num l
  | .str s => .str s
  | .arr xs => .arr (sortJsonList xs)
  | .obj fs => .obj (sortFields (sortJsonFields fs))

/-- Sorts every element of an array. -/
def sortJsonList : List Json → List Json
  | [] => []
  | x :: xs => sortJson x :: sortJsonList xs

/-- Sorts every value of an object field list. -/
def sortJsonFields : List (Str × Json) → List (Str × Json)
  | [] => []
  | (k, v) :: fs => (k, sortJson v) :: sortJsonFields fs

end

mutual

/-- Prints a value whose object fields are already in output order. -/
def printJsonRaw : Json → Str
  | .null => lit "null"
  | .bool true => lit "true"
  | .bool false => lit "false"
  | .num l => l
  | .str s => quoteJson s
  | .arr xs => '[' :: (printArrItems xs ++ [']'])
  | .obj fs => '{' :: (printObjItems fs ++ ['}'])

/-- Prints array items separated by commas. -/
def printArrItems : List Json → Str
  | [] => []
  | [x] => printJsonRaw x
  | x :: y :: xs => printJsonRaw x ++ ',' :: printArrItems (y :: xs)

/-- Prints object members separated by commas. -/
def printObjItems : List (Str × Json) → Str
  | [] => []
  | [(k, v)] => quoteJson k ++ ':' :: printJsonRaw v
  | (k, v) :: kv2 :: fs => quoteJson k ++ ':' :: printJsonRaw v ++ ',' :: printObjItems (kv2 :: fs)

end

/-- Model of `json.Marshal` on decoded dynamic values. -/
def printJson (v : Json) : Str := printJsonRaw (sortJson v)

mutual

/-- Model of `maskValue` in hitl.go: masks every string leaf, leaves keys and
non-string scalars untouched. -/
def maskValue : Json → Json
  | .null => .null
  | .bool b => .bool b
  | .num l => .num l
  | .str s => .str (maskPIIString s)
  | .arr xs => .arr (maskValueList xs)
  | .obj fs => .obj (maskValueFields fs)

/-- Masks every element of an array. -/
def maskValueList : List Json → List Json
  | [] => []
  | x :: xs => maskValue x :: maskValueList xs

/-- Masks every value of an object. -/
def maskValueFields : List (Str × Json) → List (Str × Json)
  | [] => []
  | (k, v) :: fs => (k, maskValue v) :: maskValueFields fs

end

/-- Model of `policy.MaskPIIJSON`: blank payloads are returned unchanged,
undecodable payloads are masked as raw strings, decodable payloads are
decoded, masked recursively and re-encoded. -/
def maskPIIJSON (payload : Str) : Str :=
  if trimSpace payload = [] then payload
  else
    match parseTop payload with
    | none => maskPIIString payload
    | some v => printJson (maskValue v)

/-!
Policy screening (`internal/policy/hitl.go`): the manual-only payload check
and the content policy.  Decoded JSON only yields booleans, strings and
`float64` numbers, so the dead `case int` arm of `asBool` is not modelled.
-/

/-- Tests whether a JSON number literal denotes zero (all mantissa digits are
zero); mirrors the `float64 != 0` comparison in `asBool`. -/
def numLitNonZero (l : Str) : Bool :=
  (l.takeWhile (fun c => c != 'e' && c != 'E')).any (fun c => c.isDigit && c != '0')

/-- Model of `asBool` in hitl.go. -/
def asBoolJson : Json → Bool
  | .bool b => b
  | .str s =>
    let n := toLowerStr (trimSpace s)
    n == lit "true" || n == lit "1" || n == lit "yes" || n == lit "y" || n == lit "on"
  | .num l => numLitNonZero l
  | _ => false

mutual

/-- Model of `hasAutoSendFlag` in hitl.go. -/
def hasAutoSendFlag : Json → Bool
  | .obj fs => hasAutoFields fs
  | .arr xs => hasAutoList xs
  | _ => false

/-- Walks the members of an object: keyword keys are screened, every child is
visited recursively. -/
def hasAutoFields : List (Str × Json) → Bool
  | [] => false
  | (rawKey, child) :: rest =>
    let key := toLowerStr (trimSpace rawKey)
    let keyHit :=
      if key == lit "auto_send" || key == lit "autosend" || key == lit "send_automatically" ||
          key == lit "send_immediately" || key == lit "send_now" then asBoolJson child
      else if key == lit "delivery_mode" || key == lit "execution_mode" || key == lit "mode" ||
          key == lit "action" then isAutomaticMode child
      else false
    keyHit || hasAutoSendFlag child || hasAutoFields rest

/-- Walks the elements of an array. -/
def hasAutoList : List Json → Bool
  | [] => false
  | x :: xs => hasAutoSendFlag x || hasAutoList xs

/-- Model of `isAutomaticMode` in hitl.go; for container values it recurses
like `hasAutoSendFlag` does. -/
def isAutomaticMode : Json → Bool
  | .str s =>
    let n := toLowerStr (trimSpace s)
    n == lit "auto" || n == lit "automatic" || n == lit "autosend" || n == lit "send_now" ||
      n == lit "send_immediately" || n == lit "without_confirmation"
  | .obj fs => hasAutoFields fs
  | .arr xs => hasAutoList xs
  | _ => false

end

/-- Model of `policy.ValidateManualOnlyPayload`: `none` means the payload is
accepted; blank or undecodable payloads always pass. -/
def validateManualOnlyPayload (payload : Str) : Option Str :=
  if trimSpace payload = [] then none
  else
    match parseTop payload with
    | none => none
    | some v => if hasAutoSendFlag v then some (lit "automatic send is not allowed") else none

/-- Content-policy violation record. -/
structure Violation where
  code : Str
  message : Str
deriving DecidableEq

/-- Content-policy evaluation record. -/
structure Evaluation where
  allowed : Bool
  violations : List Violation
deriving DecidableEq

mutual

/-- Model of `collectStringValues`: gathers trimmed non-blank string leaves. -/
def collectStringValues : Json → List Str
  | .obj fs => collectStringFields fs
  | .arr xs => collectStringList xs
  | .str s => if trimSpace s = [] then [] else [trimSpace s]
  | _ => []

/-- Collects leaves of all object values. -/
def collectStringFields : List (Str × Json) → List Str
  | [] => []
  | (_, v) :: fs => collectStringValues v ++ collectStringFields fs

/-- Collects leaves of all array elements. -/
def collectStringList : List Json → List Str
  | [] => []
  | x :: xs => collectStringValues x ++ collectStringList xs

end

/-- Model of `hasOversizedField`: some leaf longer than 4000. -/
def hasOversizedField (values : List Str) : Bool := values.any (fun v => 4000 < v.length)

/-- The blocked-keyword lexicon of hitl.go. -/
def blockedKeywords : List Str :=
  [lit "auto send", lit "automatic send", lit "envio automatico", lit "disparo em massa",
   lit "bulk messaging", lit "mass spam", lit "phishing", lit "ransomware", lit "malware",
   lit "golpe", lit "fraude"]

/-- Model of `dedupeViolations`: keeps the first occurrence of each
code/message pair. -/
def dedupeViolations : List Violation → List Str → List Violation
  | [], _ => []
  | v :: rest, seen =>
    let key := v.code ++ '|' :: v.message
    if seen.contains key then dedupeViolations rest seen
    else v :: dedupeViolations rest (key :: seen)

/-- Model of `policy.EvaluateContentPolicy`. -/
def evaluateContentPolicy (payload : Str) : Evaluation :=
  if trimSpace payload = [] then ⟨true, []⟩
  else
    match parseTop payload with
    | none => ⟨true, []⟩
    | some v =>
      let values := collectStringValues v
      if values = [] then ⟨true, []⟩
      else
        let v1 :=
          if hasOversizedField values then
            [Violation.mk (lit "payload_too_large")
              (lit "one or more text fields exceed policy size limits")]
          else []
        let content := toLowerStr (joinSep ['\n'] values)
        let v2 :=
          if blockedKeywords.any (fun t => containsSub content t) then
            v1 ++ [Violation.mk (lit "blocked_operation")
              (lit "request contains operation blocked by policy")]
          else v1
        if v2 = [] then ⟨true, []⟩ else ⟨false, dedupeViolations v2 []⟩

/-- Model of `policy.EnforceContentPolicy`: `none` when allowed, otherwise the
violation list of the evaluation. -/
def enforceContentPolicy (payload : Str) : Option (List Violation) :=
  let e := evaluateContentPolicy payload
  if e.allowed then none else some e.violations

/-!
Quality validator (`internal/quality`, file part_008).  Scores and penalties
are `float64` in Go; every constant is an exact multiple of 0.01, so they are
modelled as integer hundredths (no claim depends on binary rounding).
-/

/-- Model of `normalizeText`: trim, then collapse runs of white space. -/
def normalizeText (value : Str) : Str :=
  let trimmed := trimSpace value
  if trimmed = [] then [] else joinSep [' '] (fieldsStr trimmed)

/-- Index of the last occurrence of `c` in `s`, or `-1`
(Go `strings.LastIndex` with a one-character needle). -/
def lastIdxAux : Str → Char → Nat → Int → Int
  | [], _, _, best => best
  | d :: rest, c, i, best => lastIdxAux rest c (i + 1) (if d == c then (i : Int) else best)

/-- Last index of a character, `-1` when absent. -/
def lastIdxOf (s : Str) (c : Char) : Int := lastIdxAux s c 0 (-1)

/-- Model of `truncateAtWord`. -/
def truncateAtWord (value : Str) (maxLen : Int) : Str :=
  if (value.length : Int) ≤ maxLen || maxLen ≤ 0 then value
  else
    let cut := value.take maxLen.toNat
    let lastSpace := lastIdxOf cut ' '
    let cut2 := if lastSpace > maxLen / 2 then cut.take lastSpace.toNat else cut
    trimSpace cut2

/-- Model of `hasTerminalPunctuation`. -/
def hasTerminalPunctuation (value : Str) : Bool :=
  match value.getLast? with
  | none => false
  | some c => c == '.' || c == '!' || c == '?'

/-- Slang lexicon of `toneMismatch`. -/
def slangMarkers : List Str := [lit "mano", lit "vlw", lit "blz", lit "cara", lit "bro"]

/-- Model of `toneMismatch`. -/
def toneMismatch (value tone : Str) : Bool :=
  if tone != lit "formal" then false
  else slangMarkers.any (fun s => containsSub (toLowerStr value) s)

/-- Portuguese locale markers. -/
def ptMarkers : List Str :=
  [lit " voce ", lit " obrigado", lit " por favor", lit " vamos ", lit " que ", lit " com "]

/-- English locale markers. -/
def enMarkers : List Str :=
  [lit " you ", lit " thanks", lit " please", lit " we ", lit " with ", lit " and "]

/-- Number of markers contained in a string. -/
def countMarkers (value : Str) (ms : List Str) : Nat :=
  (ms.filter (fun m => containsSub value m)).length

/-- Model of `hasMoreMarkers`. -/
def hasMoreMarkers (value : Str) (negative positive : List Str) : Bool :=
  countMarkers value positive + 1 < countMarkers value negative

/-- Model of `localeMismatch`. -/
def localeMismatch (value locale : Str) : Bool :=
  if locale = [] then false
  else
    let lowered := toLowerStr value
    if startsWith locale (lit "pt") then hasMoreMarkers lowered enMarkers ptMarkers
    else if startsWith locale (lit "en") then hasMoreMarkers lowered ptMarkers enMarkers
    else false

/-- Model of `clamp01` on hundredth-valued scores (0 is 0.0, 100 is 1.0). -/
def clamp01 (v : Int) : Int := if v < 0 then 0 else if v > 100 then 100 else v

/-- Model of `round2`: `math.Round(v * 100) / 100` is the identity on scores
that are exact multiples of 0.01, which all scores in this code are. -/
def round2 (v : Int) : Int := v

/-- Renders a hundredth-valued score the way `json.Marshal` prints the
corresponding `float64` (shortest decimal form). -/
def qToLit (cents : Int) : Str :=
  let sign : Str := if cents < 0 then ['-'] else []
  let n := cents.natAbs
  let ip := natToStr (n / 100)
  let fr := n % 100
  if fr == 0 then sign ++ ip
  else if fr % 10 == 0 then sign ++ ip ++ '.' :: natToStr (fr / 10)
  else sign ++ ip ++ '.' :: (if fr < 10 then '0' :: natToStr fr else natToStr fr)

/-- Suggestion candidate of the quality package. -/
structure SugCand where
  rank : Int
  content : Str
  rationale : Str
deriving DecidableEq

/-- Input of `ValidateSuggestions`. -/
structure SugInput where
  locale : Str
  tone : Str
  suggestions : List SugCand

/-- Result of `ValidateSuggestions`. -/
structure SugResult where
  suggestions : List SugCand
  score : Int
  corrected : Bool
deriving DecidableEq

/-- Mutable state of the `ValidateSuggestions` loop. -/
structure SugLoopState where
  seen : List Str
  output : List SugCand
  penalty : Int
  corrected : Bool

/-- One iteration of the `ValidateSuggestions` loop; the boolean is true when
the loop breaks because three candidates were accepted. -/
def sugStep (tone locale : Str) (item : SugCand) (st : SugLoopState) : SugLoopState × Bool :=
  let content0 := normalizeText item.content
  if content0 = [] then
    ({ st with corrected := true, penalty := st.penalty + 20 }, false)
  else
    let masked := maskPIIString content0
    let corrected1 := st.corrected || (masked != content0)
    let penalty1 := st.penalty + (if masked != content0 then (5 : Int) else 0)
    let needTrunc := (masked.length : Int) > 320
    let content2 := if needTrunc then truncateAtWord masked 320 else masked
    let corrected2 := corrected1 || needTrunc
    let penalty2 := penalty1 + (if needTrunc then (8 : Int) else 0)
    let needDot := !hasTerminalPunctuation content2
    let content3 := if needDot then content2 ++ ['.'] else content2
    let corrected3 := corrected2 || needDot
    let key := toLowerStr content3
    if st.seen.contains key then
      ({ st with corrected := true, penalty := penalty2 + 6 }, false)
    else
      let penalty4 := penalty2 + (if toneMismatch content3 tone then (7 : Int) else 0)
      let penalty5 := penalty4 + (if localeMismatch content3 locale then (7 : Int) else 0)
      let rationale0 := normalizeText item.rationale
      let needRTrunc := (rationale0.length : Int) > 180
      let rationale1 := if needRTrunc then truncateAtWord rationale0 180 else rationale0
      let corrected4 := corrected3 || needRTrunc
      let output2 := st.output ++ [⟨(st.output.length : Int) + 1, content3, rationale1⟩]
      ({ seen := key :: st.seen, output := output2, penalty := penalty5,
         corrected := corrected4 }, output2.length == 3)

/-- The `ValidateSuggestions` loop over the input candidates. -/
def sugLoop (tone locale : Str) : List SugCand → SugLoopState → SugLoopState
  | [], st => st
  | item :: rest, st =>
    let r := sugStep tone locale item st
    if r.2 then r.1 else sugLoop tone locale rest r.1

/-- Score floor for suggestions (0.45 in hundredths). -/
def minSuggestionScore : Int := 45

/-- Score floor for structured payloads (0.50 in hundredths). -/
def minStructuredScore : Int := 50

/-- Model of `OutputValidator.ValidateSuggestions`. -/
def validateSuggestions (input : SugInput) : Except Str SugResult :=
  if input.suggestions = [] then
    .error (lit "output failed quality checks: empty suggestions")
  else
    let locale := toLowerStr (trimSpace input.locale)
    let tone0 := toLowerStr (trimSpace input.tone)
    let tone := if tone0 = [] then lit "neutro" else tone0
    let st := sugLoop tone locale input.suggestions ⟨[], [], 0, false⟩
    if st.output = [] then
      .error (lit "output failed quality checks: no valid suggestion candidates")
    else
      let score := clamp01 (100 - st.penalty)
      if score < minSuggestionScore then
        .error (lit "output failed quality checks: low suggestion quality score")
      else .ok ⟨st.output, round2 score, st.corrected⟩

/-- Looks a key up in decoded object fields; the last occurrence wins, the
way `json.Unmarshal` assigns repeated keys. -/
def getFieldLast (fs : List (Str × Json)) (key : Str) : Option Json :=
  fs.foldl (fun acc kv => if kv.1 == key then some kv.2 else acc) none

/-- Decodes an optional field into a Go `string` (absent and `null` give the
zero value; any other non-string value is a type error). -/
def decodeStrField : Option Json → Except Unit Str
  | none => .ok []
  | some .null => .ok []
  | some (.str s) => .ok s
  | some _ => .error ()

/-- Decodes one element of a `[]string`. -/
def decodeStrElem : Json → Except Unit Str
  | .null => .ok []
  | .str s => .ok s
  | _ => .error ()

/-- Decodes an optional field into a Go `[]string`. -/
def decodeStrList : Option Json → Except Unit (List Str)
  | none => .ok []
  | some .null => .ok []
  | some (.arr xs) => xs.mapM decodeStrElem
  | some _ => .error ()

/-- Field list of a value decoded into a Go struct: objects expose their
members, `null` leaves the zero value, anything else is a type error. -/
def objFieldsOf : Json → Except Unit (List (Str × Json))
  | .obj fs => .ok fs
  | .null => .ok []
  | _ => .error ()

/-- Action-item loop of `validateSummary`: mask, normalize, truncate over 220,
deduplicate case-insensitively, cap at 10. -/
def summaryItemsLoop : List Str → List Str → List Str → Int → (List Str × Int)
  | [], _, acc, p => (acc, p)
  | item :: rest, seen, acc, p =>
    let normalized := normalizeText (maskPIIString item)
    if normalized = [] then summaryItemsLoop rest seen acc p
    else
      let needT := (normalized.length : Int) > 220
      let normalized2 := if needT then truncateAtWord normalized 220 else normalized
      let p2 := p + (if needT then (3 : Int) else 0)
      let key := toLowerStr normalized2
      if seen.contains key then summaryItemsLoop rest seen acc p2
      else
        let acc2 := acc ++ [normalized2]
        if acc2.length ≥ 10 then (acc2, p2) else summaryItemsLoop rest (key :: seen) acc2 p2

/-- Core of `validateSummary`: the validated summary text, action items,
echoed versions and score. -/
def validateSummaryCore (body : Json) (locale : Str) :
    Except Str (Str × List Str × Str × Str × Int) :=
  match objFieldsOf body with
  | .error _ => .error (lit "output failed quality checks: decode summary payload")
  | .ok fs =>
    match decodeStrField (getFieldLast fs (lit "summary")),
        decodeStrList (getFieldLast fs (lit "action_items")),
        decodeStrField (getFieldLast fs (lit "prompt_version")),
        decodeStrField (getFieldLast fs (lit "model_id")) with
    | .ok summaryRaw, .ok items, .ok promptVersion, .ok modelID =>
      let summary0 := normalizeText (maskPIIString summaryRaw)
      if summary0 = [] then .error (lit "output failed quality checks: summary text is empty")
      else
        let needTrunc := (summary0.length : Int) > 2400
        let summary := if needTrunc then truncateAtWord summary0 2400 else summary0
        let p1 : Int := if needTrunc then 6 else 0
        let p2 := p1 + (if (summary.length : Int) < 40 then (18 : Int) else 0)
        let p3 := p2 + (if localeMismatch summary (toLowerStr (trimSpace locale)) then (7 : Int) else 0)
        let r := summaryItemsLoop items [] [] p3
        let p5 := r.2 + (if r.1 = [] then (10 : Int) else 0)
        let score := clamp01 (100 - p5)
        if score < minStructuredScore then
          .error (lit "output failed quality checks: low summary quality score")
        else .ok (summary, r.1, promptVersion, modelID, round2 score)
    | _, _, _, _ => .error (lit "output failed quality checks: decode summary payload")

/-- Canonical summary payload emitted by `validateSummary`. -/
def summaryPayloadJson (summary : Str) (actionItems : List Str)
    (promptVersion modelID : Str) (score : Int) : Json :=
  .obj [(lit "summary", .str summary), (lit "action_items", .arr (actionItems.map Json.str)),
    (lit "prompt_version", .str promptVersion), (lit "model_id", .str modelID),
    (lit "quality_score", .num (qToLit score))]

/-- Model of `validateSummary`. -/
def validateSummary (body : Json) (locale : Str) : Except Str (Json × Int) :=
  match validateSummaryCore body locale with
  | .error e => .error e
  | .ok (summary, items, pv, mid, score) =>
    .ok (summaryPayloadJson summary items pv mid score, score)

/-- Decodes one element of the report `sections` array. -/
def decodeSection : Json → Except Unit (Str × Str)
  | .null => .ok ([], [])
  | .obj fs =>
    match decodeStrField (getFieldLast fs (lit "heading")),
        decodeStrField (getFieldLast fs (lit "content")) with
    | .ok h, .ok c => .ok (h, c)
    | _, _ => .error ()
  | _ => .error ()

/-- Decodes the `sections` field of a report payload. -/
def decodeSections : Option Json → Except Unit (List (Str × Str))
  | none => .ok []
  | some .null => .ok []
  | some (.arr xs) => xs.mapM decodeSection
  | some _ => .error ()

/-- Section loop of `validateReport`: mask, drop blank pairs, truncate
heading/content, penalize locale mismatch, cap at 8 sections. -/
def reportSectionsLoop (locale : Str) :
    List (Str × Str) → List (Str × Str) → Int → (List (Str × Str) × Int)
  | [], acc, p => (acc, p)
  | (h0, c0) :: rest, acc, p =>
    let heading := normalizeText (maskPIIString h0)
    let content := normalizeText (maskPIIString c0)
    if heading = [] ∨ content = [] then reportSectionsLoop locale rest acc p
    else
      let needH := (heading.length : Int) > 90
      let heading2 := if needH then truncateAtWord heading 90 else heading
      let p2 := p + (if needH then (2 : Int) else 0)
      let needC := (content.length : Int) > 1800
      let content2 := if needC then truncateAtWord content 1800 else content
      let p3 := p2 + (if needC then (5 : Int) else 0)
      let p4 := p3 + (if localeMismatch content2 (toLowerStr (trimSpace locale)) then (5 : Int) else 0)
      let acc2 := acc ++ [(heading2, content2)]
      if acc2.length ≥ 8 then (acc2, p4) else reportSectionsLoop locale rest acc2 p4

/-- Core of `validateReport`: validated title, sections, echoed versions and
score. -/
def validateReportCore (body : Json) (locale : Str) :
    Except Str (Str × List (Str × Str) × Str × Str × Int) :=
  match objFieldsOf body with
  | .error _ => .error (lit "output failed quality checks: decode report payload")
  | .ok fs =>
    match decodeStrField (getFieldLast fs (lit "title")),
        decodeSections (getFieldLast fs (lit "sections")),
        decodeStrField (getFieldLast fs (lit "prompt_version")),
        decodeStrField (getFieldLast fs (lit "model_id")) with
    | .ok titleRaw, .ok sections0, .ok promptVersion, .ok modelID =>
      let title0 := normalizeText (maskPIIString titleRaw)
      let p0 : Int := if title0 = [] then 5 else 0
      let title1 := if title0 = [] then lit "Relatorio da conversa" else title0
      let needT := (title1.length : Int) > 120
      let title2 := if needT then truncateAtWord title1 120 else title1
      let p1 := p0 + (if needT then (2 : Int) else 0)
      let r := reportSectionsLoop locale sections0 [] p1
      if r.1 = [] then .error (lit "output failed quality checks: report sections are empty")
      else
        let p3 := r.2 + (if r.1.length < 2 then (12 : Int) else 0)
        let score := clamp01 (100 - p3)
        if score < minStructuredScore then
          .error (lit "output failed quality checks: low report quality score")
        else .ok (title2, r.1, promptVersion, modelID, round2 score)
    | _, _, _, _ => .error (lit "output failed quality checks: decode report payload")

/-- Canonical report payload emitted by `validateReport`. -/
def reportPayloadJson (title : Str) (sections : List (Str × Str))
    (promptVersion modelID : Str) (score : Int) : Json :=
  .obj [(lit "title", .str title),
    (lit "sections", .arr (sections.map (fun s =>
      .obj [(lit "heading", .str s.1), (lit "content", .str s.2)]))),
    (lit "prompt_version", .str promptVersion), (lit "model_id", .str modelID),
    (lit "quality_score", .num (qToLit score))]

/-- Model of `validateReport`. -/
def validateReport (body : Json) (locale : Str) : Except Str (Json × Int) :=
  match validateReportCore body locale with
  | .error e => .error e
  | .ok (title, sections, pv, mid, score) =>
    .ok (reportPayloadJson title sections pv mid score, score)

/-!
Context builder (`internal/context`, file part_004).  `Builder.Build` is
modelled after the retrieval step: quantifying over the retrieved chunk list
covers every payload and retriever.  The response cache is bypassed — a cache
hit returns a clone of an earlier output of this same computation.  Scores
are `float64` in Go; the retriever only ever produces integer scores, so they
are modelled as `Int`.
-/

/-- Retrieved fragment. -/
structure Chunk where
  id : Str
  text : Str
  score : Int
deriving DecidableEq

/-- Dedup fingerprint: lower-cased, white-space-collapsed text. -/
def fingerprintOf (t : Str) : Str := toLowerStr (joinSep [' '] (fieldsStr t))

/-- Association-list lookup used to model the `seen` map of `dedupeChunks`. -/
def assocGetChunk : List (Str × Chunk) → Str → Option Chunk
  | [], _ => none
  | (k, c) :: rest, key => if k == key then some c else assocGetChunk rest key

/-- In-place value update keyed by fingerprint (insertion order preserved). -/
def assocSetChunk : List (Str × Chunk) → Str → Chunk → List (Str × Chunk)
  | [], key, c => [(key, c)]
  | (k, c0) :: rest, key, c =>
    if k == key then (key, c) :: rest else (k, c0) :: assocSetChunk rest key c

/-- Loop of `dedupeChunks`: first occurrence fixes the position, the highest
score wins per fingerprint. -/
def dedupeLoop : List Chunk → List (Str × Chunk) → List (Str × Chunk)
  | [], acc => acc
  | c :: rest, acc =>
    let key := fingerprintOf c.text
    match assocGetChunk acc key with
    | none => dedupeLoop rest (acc ++ [(key, c)])
    | some existing =>
      if existing.score < c.score then dedupeLoop rest (assocSetChunk acc key c)
      else dedupeLoop rest acc

/-- Model of `dedupeChunks`. -/
def dedupeChunks (chunks : List Chunk) : List Chunk :=
  if chunks.length ≤ 1 then chunks
  else (dedupeLoop chunks []).map (fun kv => kv.2)

/-- Comparator of the stable sort in `Build`: score descending, chunk id
ascending as tie break. -/
def lessChunk (a b : Chunk) : Bool :=
  if a.score == b.score then strLt a.id b.id else decide (a.score > b.score)

/-- Insertion step of the sort. -/
def insertChunk (c : Chunk) : List Chunk → List Chunk
  | [] => [c]
  | d :: rest => if lessChunk c d then c :: d :: rest else d :: insertChunk c rest

/-- Model of `sort.SliceStable` with `lessChunk` (any comparator-sorted
permutation is acceptable for the properties proved below). -/
def sortChunks : List Chunk → List Chunk
  | [] => []
  | c :: rest => insertChunk c (sortChunks rest)

/-- Model of `estimateTokens`: ⌈runes / 4⌉-style estimate with a floor of one
token for non-blank text. -/
def estimateTokens (text : Str) : Nat :=
  let trimmed := trimSpace text
  if trimmed = [] then 0 else max (trimmed.length / 4) 1

/-- Greedy selection loop of `Build`: skip empty estimates, skip chunks that
would push the total over `maxTok`, stop once `maxCh` chunks are kept. -/
def selectLoop (maxTok maxCh : Int) : List Chunk → List Chunk → Nat → (List Chunk × Nat)
  | [], sel, tot => (sel, tot)
  | c :: rest, sel, tot =>
    let est := estimateTokens c.text
    if est = 0 then selectLoop maxTok maxCh rest sel tot
    else if (tot : Int) + est > maxTok then selectLoop maxTok maxCh rest sel tot
    else
      let sel2 := sel ++ [c]
      let tot2 := tot + est
      if (sel2.length : Int) ≥ maxCh then (sel2, tot2)
      else selectLoop maxTok maxCh rest sel2 tot2

/-- Budget triple of `BuildInput`. -/
structure BuildBudget where
  maxInputTokens : Int
  maxChunks : Int
  contextWindow : Int
deriving DecidableEq

/-- Model of `normalizeBuildInput`. -/
def normalizeBuildInput (task : Str) (b : BuildBudget) : BuildBudget :=
  let t := toLowerStr (trimSpace task)
  let mit :=
    if b.maxInputTokens ≤ 0 then
      if t == lit "suggestion" then 1600
      else if t == lit "summary" then 3200
      else if t == lit "report" then 5200
      else 2500
    else b.maxInputTokens
  let mc :=
    if b.maxChunks ≤ 0 then
      if t == lit "suggestion" then 6
      else if t == lit "summary" then 10
      else if t == lit "report" then 12
      else 8
    else b.maxChunks
  let cw := if b.contextWindow ≤ 0 then 20 else b.contextWindow
  ⟨mit, mc, cw⟩

/-- Static fallback fragment text. -/
def fallbackContextText : Str :=
  lit "Contexto minimo: sem dados suficientes no payload para composicao detalhada."

/-- Static fallback chunk. -/
def fallbackChunk : Chunk := ⟨lit "fallback", fallbackContextText, 1⟩

/-- Numbered rendering of the selected chunks. -/
def renderContextLines : Nat → List Chunk → Str
  | _, [] => []
  | i, c :: rest => '[' :: natToStr i ++ ']' :: ' ' :: c.text ++ '\n' :: renderContextLines (i + 1) rest

/-- Model of the context rendering of `Build`. -/
def renderContext (selected : List Chunk) : Str :=
  trimSpace (lit "Contexto priorizado:" ++ '\n' :: renderContextLines 1 selected)

/-- Output of `Build`. -/
structure BuildOutputM where
  contextText : Str
  chunks : List Chunk
  tokenCount : Nat
deriving DecidableEq

/-- Model of `Builder.Build` on the retrieved chunk list: dedupe, stable sort,
greedy budgeted selection, static fallback when nothing was selected. -/
def buildFromChunks (retrieved : List Chunk) (task : Str) (budget : BuildBudget) : BuildOutputM :=
  let b := normalizeBuildInput task budget
  let deduped := dedupeChunks retrieved
  let sorted := sortChunks deduped
  let r := selectLoop b.maxInputTokens b.maxChunks sorted [] 0
  let selected := if r.1 = [] then [fallbackChunk] else r.1
  let totalTokens := if r.1 = [] then estimateTokens fallbackContextText else r.2
  { contextText := renderContext selected, chunks := selected, tokenCount := totalTokens }

/-!
Jobs repository (`internal/repository`, in-memory implementation) and the
HTTP handler helpers the claims reference.  The job map is modelled as an
association list; byte-slice cloning is the identity here, so `cloneJob` is
dropped.  Timestamps are abstract integers.
-/

/-- Job lifecycle status. -/
inductive JobStatus where
  | pending
  | processing
  | done
  | failed
deriving DecidableEq

/-- The `domain.Job` record.  `payload` and `result` are JSON bytes. -/
structure Job where
  id : Str
  kind : Str
  tenantID : Str
  conversationID : Str
  payload : Str
  status : JobStatus
  result : Str
  errorMessage : Str
  attempts : Int
  createdAt : Int
  updatedAt : Int
deriving DecidableEq

/-- In-memory job store keyed by job id. -/
abbrev JobsRepo := List (Str × Job)

/-- Map lookup. -/
def repoLookup : JobsRepo → Str → Option Job
  | [], _ => none
  | (k, j) :: rest, key => if k == key then some j else repoLookup rest key

/-- Map assignment: replaces the binding for the key or appends a new one. -/
def repoStore : JobsRepo → Str → Job → JobsRepo
  | [], key, j => [(key, j)]
  | (k, j0) :: rest, key, j =>
    if k == key then (key, j) :: rest else (k, j0) :: repoStore rest key j

/-- Model of `MemoryJobsRepository.CreateJob`: stores a clone under `job.ID`
and returns no error. -/
def createJob (repo : JobsRepo) (job : Job) : JobsRepo × Option Str :=
  (repoStore repo job.id job, none)

/-- Model of `MemoryJobsRepository.UpdateJob`. -/
def updateJob (repo : JobsRepo) (job : Job) : JobsRepo × Option Str :=
  match repoLookup repo job.id with
  | none => (repo, some (lit "resource not found"))
  | some _ => (repoStore repo job.id job, none)

/-- Model of `MemoryJobsRepository.GetJob`. -/
def getJob (repo : JobsRepo) (jobID : Str) : Option Job := repoLookup repo jobID

/-- The `domain.ReportListItem` projection. -/
structure ReportListItem where
  reportID : Str
  conversationID : Str
  status : JobStatus
  createdAt : Int
  title : Str
deriving DecidableEq

/-- The `domain.ReportListFilter` record. -/
structure ReportListFilter where
  tenantID : Str
  page : Int
  pageSize : Int
  fromT : Option Int
  toT : Option Int
  topic : Str

/-- Filter predicate of `MemoryJobsRepository.ListReports`. -/
def jobMatchesFilter (f : ReportListFilter) (job : Job) : Bool :=
  job.kind == lit "report" &&
    (f.tenantID == ([] : Str) || job.tenantID == f.tenantID) &&
    (match f.fromT with | none => true | some t => !decide (job.createdAt < t)) &&
    (match f.toT with | none => true | some t => !decide (job.createdAt > t)) &&
    (f.topic == ([] : Str) || containsSub (toLowerStr job.payload) (toLowerStr f.topic))

/-- Projection of a job to a report list item, including the title rule. -/
def reportItemOf (job : Job) : ReportListItem :=
  ⟨job.id, job.conversationID, job.status, job.createdAt,
    if job.status == JobStatus.done then lit "Relatorio gerado" else lit "Relatorio"⟩

/-- Insertion step of the created-at-descending sort. -/
def insertItemDesc (x : ReportListItem) : List ReportListItem → List ReportListItem
  | [] => [x]
  | y :: rest =>
    if x.createdAt > y.createdAt then x :: y :: rest else y :: insertItemDesc x rest

/-- Model of `sort.Slice` with the `CreatedAt.After` comparator. -/
def sortItemsDesc : List ReportListItem → List ReportListItem
  | [] => []
  | x :: rest => insertItemDesc x (sortItemsDesc rest)

/-- Model of `MemoryJobsRepository.ListReports`: filter, sort descending,
count before pagination, slice `[start:end]`. -/
def listReports (repo : JobsRepo) (f0 : ReportListFilter) : List ReportListItem × Int :=
  let page := if f0.page ≤ 0 then 1 else f0.page
  let pageSize := if f0.pageSize ≤ 0 then 20 else f0.pageSize
  let f := { f0 with page := page, pageSize := pageSize }
  let items := (repo.map (fun kv => kv.2)).filterMap
    (fun job => if jobMatchesFilter f job then some (reportItemOf job) else none)
  let sorted := sortItemsDesc items
  let total := (sorted.length : Int)
  let start := (page - 1) * pageSize
  if start ≥ total then ([], total)
  else ((sorted.drop start.toNat).take (min (start + pageSize) total - start).toNat, total)

/-- Page normalisation of `API.listReports` (handlers/reports.go). -/
def handlerPage (page : Int) : Int := if page ≤ 0 then 1 else page

/-- Page-size normalisation of `API.listReports`: out-of-range values fall
back to the default 20. -/
def handlerPageSize (pageSize : Int) : Int :=
  if pageSize ≤ 0 || pageSize > 100 then 20 else pageSize

/-- GET `/v1/reports` pipeline: handler normalisation composed with the
in-memory repository query. -/
def listReportsEndpoint (repo : JobsRepo) (tenantID : Str) (page pageSize : Int)
    (fromT toT : Option Int) (topic : Str) : List ReportListItem × Int :=
  listReports repo
    ⟨trimSpace tenantID, handlerPage page, handlerPageSize pageSize, fromT, toT, trimSpace topic⟩

/-- Model of `validateConversation` (handlers package): `none` accepts the
request. -/
def validateConversation (tenantID conversationID channel : Str) : Option Str :=
  let t := trimSpace tenantID
  let c := trimSpace conversationID
  if t = [] || 64 < t.length then some (lit "invalid payload")
  else if c = [] || 128 < c.length then some (lit "invalid payload")
  else
    let channel2 := if channel = [] then lit "whatsapp_web" else channel
    if channel2 ≠ lit "whatsapp_web" then some (lit "invalid payload") else none

/-!
Queue consumers (`internal/queue`, streams and local implementations).  The
per-message failure handling is modelled as a pure step: the handler outcome
is a parameter, and the step reports what is appended to the DLQ, what is
republished to the main stream (or retried on the local channel), and whether
the original entry is acknowledged and deleted.
-/

/-- The `domain.QueueMessage` transport record. -/
structure QueueMessage where
  jobID : Str
  kind : Str
  tenantID : Str
  conversationID : Str
  payload : Str
  attempt : Int
  requestedAt : Int
deriving DecidableEq

/-- Effect of handling one parsed entry in `StreamsQueue.Consume`. -/
structure StreamsStep where
  dlqEntry : Option QueueMessage
  requeued : Option QueueMessage
  ackedAndDeleted : Bool
deriving DecidableEq

/-- Model of the per-message branch of `StreamsQueue.Consume` (requeue
publication assumed to succeed; on its failure the code diverts to the DLQ
instead). -/
def streamsHandleMessage (maxAttempts : Int) (msg : QueueMessage) (handlerErr : Option Str) :
    StreamsStep :=
  match handlerErr with
  | none => ⟨none, none, true⟩
  | some _ =>
    let msg2 := { msg with attempt := msg.attempt + 1 }
    if msg2.attempt ≥ maxAttempts then ⟨some msg2, none, true⟩
    else ⟨none, some msg2, true⟩

/-- Effect of handling one message in `LocalQueue.Consume`. -/
structure LocalStep where
  dlqEntry : Option QueueMessage
  retried : Option QueueMessage
deriving DecidableEq

/-- Model of the per-message branch of `LocalQueue.Consume` (the retry timer
delay is not modelled; `retried` is what the timer goroutine republishes). -/
def localHandleMessage (maxAttempts : Int) (msg : QueueMessage) (handlerErr : Option Str) :
    LocalStep :=
  match handlerErr with
  | none => ⟨none, none⟩
  | some _ =>
    let msg2 := { msg with attempt := msg.attempt + 1 }
    if msg2.attempt ≥ maxAttempts then ⟨some msg2, none⟩
    else ⟨none, some msg2⟩

/-!
AI generation service (`internal/service/ai_generation.go`).  The service is
modelled as the pure pipeline of `generateStructuredJob`; the effectful
collaborators enter as parameters: the context-build outcome, the rendered
prompt outcome (the template file read) and the generator client.  Payload
bytes (`json.RawMessage`) stay byte-level (`Str`); the semantic cache is an
association list keyed by the normalized signature preimage (the SHA-256 +
hex step of `BuildSignature` is modelled as the identity on that preimage,
which it determines injectively).
-/

/-- The `ai.ModelProfile` record. -/
structure ModelProfile where
  primaryModel : Str
  fallbackModel : Str
  temperature : ℚ
  maxOutputTokens : Int
deriving DecidableEq

/-- Model of `ModelRouter.Select` under the default configuration (all six
model ids default to the same identifier in `NewModelRouter`). -/
def routerSelect (task : Str) : ModelProfile :=
  let m := lit "openai/gpt-4o-mini"
  if task == lit "suggestion" then ⟨m, m, 4 / 10, 500⟩
  else if task == lit "summary" then ⟨m, m, 2 / 10, 700⟩
  else if task == lit "report" then ⟨m, m, 2 / 10, 1400⟩
  else ⟨m, m, 2 / 10, 700⟩

/-- The `ai.GenerateRequest` record. -/
structure GenRequest where
  model : Str
  instructions : Str
  input : Str
  temperature : ℚ
  maxOutputTokens : Int

/-- The text/model part of `ai.GenerateResult`. -/
structure GenText where
  text : Str
  modelID : Str
deriving DecidableEq

/-- The `ai.TextGenerator` capability: availability plus the outcome of each
`Generate` call. -/
structure Generator where
  availableF : Bool
  generateF : GenRequest → Except Str GenText

/-- Model of `firstNonEmpty`. -/
def firstNonEmpty : List Str → Str
  | [] => []
  | v :: rest => if trimSpace v ≠ [] then trimSpace v else firstNonEmpty rest

/-- Instructions sent with every structured-job generation. -/
def generateInstructions : Str := lit "Return only valid JSON. Do not use markdown code fences."

/-- Model of `AIGenerationService.generateText`: unavailable client fails with
the sentinel, then primary model, then one distinct non-empty fallback model. -/
def generateText (client : Option Generator) (profile : ModelProfile) (prompt : Str) :
    Except Str (Str × Str) :=
  match client with
  | none => .error (lit "openai client unavailable")
  | some g =>
    if !g.availableF then .error (lit "openai client unavailable")
    else
      match g.generateF ⟨profile.primaryModel, generateInstructions, prompt,
          profile.temperature, profile.maxOutputTokens⟩ with
      | .ok r => .ok (r.text, firstNonEmpty [r.modelID, profile.primaryModel])
      | .error e =>
        if trimSpace profile.fallbackModel = [] || profile.fallbackModel == profile.primaryModel
        then .error e
        else
          match g.generateF ⟨profile.fallbackModel, generateInstructions, prompt,
              profile.temperature, profile.maxOutputTokens⟩ with
          | .error e2 => .error (lit "primary model failed: " ++ e ++ lit "; fallback failed: " ++ e2)
          | .ok r => .ok (r.text, firstNonEmpty [r.modelID, profile.fallbackModel])

/-- Model of Go `strings.TrimPrefix`. -/
def trimPrefixStr (s p : Str) : Str := if startsWith s p then s.drop p.length else s

/-- Model of Go `strings.TrimSuffix`. -/
def trimSuffixStr (s p : Str) : Str := if endsWith s p then s.take (s.length - p.length) else s

/-- Model of `stripCodeFence`. -/
def stripCodeFence (text : Str) : Str :=
  let t0 := trimSpace text
  let t1 := trimPrefixStr t0 (lit "```")
  let t2 := trimPrefixStr t1 (lit "json")
  let t3 := trimSuffixStr t2 (lit "```")
  trimSpace t3

/-- First index of a character, `-1` when absent (Go `strings.Index` with a
one-character needle). -/
def firstIdxAux : Str → Char → Nat → Int
  | [], _, _ => -1
  | d :: rest, c, i => if d == c then (i : Int) else firstIdxAux rest c (i + 1)

/-- First index of a character. -/
def firstIdxOf (s : Str) (c : Char) : Int := firstIdxAux s c 0

/-- Model of `extractJSON`: whole trimmed text if it decodes, otherwise the
span from the first opening brace to the last closing brace. -/
def extractJSON (text : Str) : Except Str Str :=
  let t0 := trimSpace text
  if t0 = [] then .error (lit "empty model output")
  else
    let t := if startsWith t0 (lit "```") then stripCodeFence t0 else t0
    if (parseTop t).isSome then .ok t
    else
      let start := firstIdxOf t '{'
      let endI := lastIdxOf t '}'
      if start ≥ 0 && endI > start then
        let candidate := (t.drop start.toNat).take (endI - start + 1).toNat
        if (parseTop candidate).isSome then .ok candidate
        else .error (lit "model output is not valid JSON")
      else .error (lit "model output is not valid JSON")

/-- Model of `parseJobPayload`: extracts the balanced JSON object, decodes the
task schema and re-emits the canonical payload (as a decoded value). -/
def parseJobPayload (task : Str) (text : Str) (promptVersion modelID : Str) : Except Str Json :=
  match extractJSON text with
  | .error e => .error e
  | .ok rawJSON =>
    match parseTop rawJSON with
    | none => .error (lit "model output is not valid JSON")
    | some v =>
      if task == lit "summary" then
        match objFieldsOf v with
        | .error _ => .error (lit "decode summary json")
        | .ok fs =>
          match decodeStrField (getFieldLast fs (lit "summary")),
              decodeStrList (getFieldLast fs (lit "action_items")) with
          | .ok summary, .ok items =>
            if trimSpace summary = [] then .error (lit "summary is empty")
            else .ok (.obj [(lit "summary", .str (trimSpace summary)),
              (lit "action_items", .arr (items.map Json.str)),
              (lit "prompt_version", .str promptVersion), (lit "model_id", .str modelID)])
          | _, _ => .error (lit "decode summary json")
      else if task == lit "report" then
        match objFieldsOf v with
        | .error _ => .error (lit "decode report json")
        | .ok fs =>
          match decodeStrField (getFieldLast fs (lit "title")),
              decodeSections (getFieldLast fs (lit "sections")) with
          | .ok titleRaw, .ok sections0 =>
            let title := if trimSpace titleRaw = [] then lit "Relatorio da conversa"
              else trimSpace titleRaw
            if sections0 = [] then .error (lit "report sections are empty")
            else
              let sections := sections0.filterMap (fun s =>
                if trimSpace s.1 = [] || trimSpace s.2 = [] then none
                else some (trimSpace s.1, trimSpace s.2))
              if sections = [] then .error (lit "report sections are invalid")
              else .ok (.obj [(lit "title", .str title),
                (lit "sections", .arr (sections.map (fun s =>
                  .obj [(lit "heading", .str s.1), (lit "content", .str s.2)]))),
                (lit "prompt_version", .str promptVersion), (lit "model_id", .str modelID)])
          | _, _ => .error (lit "decode report json")
      else .error (lit "unsupported task for parse payload: " ++ task)

/-- Model of `OutputValidator.ValidateTaskPayload`. -/
def validateTaskPayload (task : Str) (body : Json) (locale _tone : Str) : Except Str (Json × Int) :=
  if task == lit "summary" then validateSummary body locale
  else if task == lit "report" then validateReport body locale
  else .error (lit "output failed quality checks: unsupported task " ++ task)

/-- Model of `normalizeLocale`. -/
def normalizeLocale (locale : Str) : Str :=
  let trimmed := trimSpace locale
  if trimmed = [] then lit "pt-BR"
  else if 16 < trimmed.length then trimmed.take 16
  else trimmed

/-- Model of `normalizeTone`. -/
def normalizeTone (tone : Str) : Str :=
  let n := toLowerStr (trimSpace tone)
  if n == lit "formal" || n == lit "neutro" || n == lit "amigavel" then n else lit "neutro"

/-- Semantic-cache entry (value bytes, model id, prompt version). -/
structure CacheEntry where
  value : Str
  modelID : Str
  promptVersion : Str
deriving DecidableEq

/-- Semantic-cache state within its TTL window. -/
abbrev CacheState := List (Str × CacheEntry)

/-- Cache lookup (an absent key is a miss; expiry is not modelled because the
claims only exercise fresh caches). -/
def cacheGet : CacheState → Str → Option CacheEntry
  | [], _ => none
  | (k, e) :: rest, key => if k == key then some e else cacheGet rest key

/-- Cache insertion. -/
def cacheSet : CacheState → Str → CacheEntry → CacheState
  | [], key, e => [(key, e)]
  | (k, e0) :: rest, key, e =>
    if k == key then (key, e) :: rest else (k, e0) :: cacheSet rest key e

/-- Model of `SemanticCache.BuildSignature` up to the injective SHA-256 + hex
step: each part trimmed and lower-cased, joined with a separator. -/
def buildSignature (parts : List Str) : Str :=
  joinSep (lit "||") (parts.map (fun p => trimSpace (toLowerStr p)))

/-- The `service.JobGenerationInput` record (the payload itself only feeds
the context build, which enters as an outcome parameter). -/
structure JobGenInput where
  tenantID : Str
  conversationID : Str
  locale : Str
  tone : Str

/-- The `service.JobGenerationOutput` record. -/
structure JobGenerationOutput where
  body : Str
  modelID : Str
  promptVersion : Str
  cacheHit : Bool
  usedFallback : Bool
deriving DecidableEq

/-- Static degraded summary payload of `fallbackJob`. -/
def fallbackSummaryPayload (promptVersion : Str) : Json :=
  .obj [(lit "summary",
      .str (lit "Resumo gerado em modo degradado por indisponibilidade temporaria do modelo.")),
    (lit "action_items", .arr [.str (lit "Revisar pendencias principais"),
      .str (lit "Responder contato com proximo passo")]),
    (lit "prompt_version", .str promptVersion),
    (lit "model_id", .str (lit "fallback-local")),
    (lit "quality_score", .num (lit "0.55"))]

/-- Static degraded report payload of `fallbackJob`. -/
def fallbackReportPayload (promptVersion : Str) : Json :=
  .obj [(lit "title", .str (lit "Relatorio (modo degradado)")),
    (lit "sections", .arr [
      .obj [(lit "heading", .str (lit "Visao geral")),
        (lit "content", .str (lit "Relatorio gerado em modo degradado devido a indisponibilidade temporaria do modelo."))],
      .obj [(lit "heading", .str (lit "Pendencias")),
        (lit "content", .str (lit "Validar manualmente os pontos criticos da conversa."))],
      .obj [(lit "heading", .str (lit "Proximos passos")),
        (lit "content", .str (lit "Tentar nova geracao quando o servico de IA estiver disponivel."))]]),
    (lit "prompt_version", .str promptVersion),
    (lit "model_id", .str (lit "fallback-local")),
    (lit "quality_score", .num (lit "0.55"))]

/-- Model of `AIGenerationService.fallbackJob`. -/
def fallbackJob (task : Str) (promptVersion : Str) : JobGenerationOutput :=
  let payload :=
    if task == lit "summary" then fallbackSummaryPayload promptVersion
    else if task == lit "report" then fallbackReportPayload promptVersion
    else .obj [(lit "model_id", .str (lit "fallback-local")),
      (lit "prompt_version", .str promptVersion), (lit "quality_score", .num (lit "0.55"))]
  ⟨printJson payload, lit "fallback-local", promptVersion, false, true⟩

/-- Model of `AIGenerationService.generateStructuredJob`.  `buildOutcome` is
the result of `builder.Build`, `renderOutcome` the result of `renderPrompt`
(template file read and execution); both degrade to the fallback output. -/
def generateStructuredJob (task : Str) (client : Option Generator) (cache : CacheState)
    (buildOutcome : Except Str BuildOutputM) (renderOutcome : Except Str Str)
    (input : JobGenInput) (promptVersion : Str) : JobGenerationOutput × CacheState :=
  let locale := normalizeLocale input.locale
  let tone := normalizeTone input.tone
  let profile := routerSelect task
  match buildOutcome with
  | .error _ => (fallbackJob task promptVersion, cache)
  | .ok ctxOut =>
    let signature := buildSignature [task, input.tenantID, input.conversationID, locale, tone,
      promptVersion, ctxOut.contextText]
    let cachedResult : Option JobGenerationOutput :=
      match cacheGet cache signature with
      | some entry =>
        if entry.value ≠ [] then
          some ⟨entry.value, firstNonEmpty [entry.modelID, lit "cache-hit"],
            firstNonEmpty [entry.promptVersion, promptVersion], true, false⟩
        else none
      | none => none
    match cachedResult with
    | some out => (out, cache)
    | none =>
      match renderOutcome with
      | .error _ => (fallbackJob task promptVersion, cache)
      | .ok prompt =>
        match generateText client profile prompt with
        | .error _ => (fallbackJob task promptVersion, cache)
        | .ok tm =>
          match parseJobPayload task tm.1 promptVersion tm.2 with
          | .error _ => (fallbackJob task promptVersion, cache)
          | .ok bodyV =>
            match validateTaskPayload task bodyV locale tone with
            | .error _ => (fallbackJob task promptVersion, cache)
            | .ok vr =>
              let bodyBytes := printJson vr.1
              (⟨bodyBytes, tm.2, promptVersion, false, false⟩,
                cacheSet cache signature ⟨bodyBytes, tm.2, promptVersion⟩)

/-- Model of `AIGenerationService.GenerateSummary` (the 3200-token budget is
part of the build outcome). -/
def generateSummary (client : Option Generator) (cache : CacheState)
    (buildOutcome : Except Str BuildOutputM) (renderOutcome : Except Str Str)
    (input : JobGenInput) : JobGenerationOutput × CacheState :=
  generateStructuredJob (lit "summary") client cache buildOutcome renderOutcome input
    (lit "summary_v1")

/-!
Worker processor (`internal/worker/processor.go`).  `processMessage` is
modelled as a pure transition on the in-memory repository; the AI service
outcome for the message enters as a parameter (`none` models a processor
constructed without an AI service).
-/

/-- Outcomes of the AI generation calls for one message. -/
structure AIOutcomes where
  genSummary : Except Str Str
  genReport : Except Str Str

/-- Static summary result bytes of `buildResult` (keys in `json.Marshal`
order). -/
def staticSummaryResult : Str := printJson (.obj [
  (lit "summary", .str (lit "Resumo gerado automaticamente para a conversa atual.")),
  (lit "action_items", .arr [.str (lit "Confirmar pendencias em aberto"),
    .str (lit "Responder contato com proximo passo")]),
  (lit "prompt_version", .str (lit "summary_v1")),
  (lit "model_id", .str (lit "summary-fast-v1"))])

/-- Static report result bytes of `buildResult`. -/
def staticReportResult : Str := printJson (.obj [
  (lit "title", .str (lit "Relatorio da conversa")),
  (lit "sections", .arr [
    .obj [(lit "heading", .str (lit "Visao geral")),
      (lit "content", .str (lit "Conversa processada com sucesso e principais pontos consolidados."))],
    .obj [(lit "heading", .str (lit "Pendencias")),
      (lit "content", .str (lit "Nenhuma pendencia critica identificada no processamento inicial."))]]),
  (lit "prompt_version", .str (lit "report_v1")),
  (lit "model_id", .str (lit "report-fast-v1"))])

/-- Model of `Processor.buildResult`: a successful AI generation supplies the
body; an AI error falls through to the static result for the kind; an
unsupported kind is the only error. -/
def buildResult (ai : Option AIOutcomes) (kind : Str) : Except Str Str :=
  let viaAI : Option Str :=
    match ai with
    | none => none
    | some b =>
      if kind == lit "summary" then b.genSummary.toOption
      else if kind == lit "report" then b.genReport.toOption
      else none
  match viaAI with
  | some body => .ok body
  | none =>
    if kind == lit "summary" then .ok staticSummaryResult
    else if kind == lit "report" then .ok staticReportResult
    else .error (lit "unsupported job kind: " ++ kind)

/-- Model of `Processor.processMessage`: load, mark processing, build the
result, then either mark failed and surface the error or mask the result and
mark done. -/
def processMessage (ai : Option AIOutcomes) (repo : JobsRepo) (msg : QueueMessage) (now : Int) :
    JobsRepo × Option Str :=
  match getJob repo msg.jobID with
  | none => (repo, some (lit "load job: resource not found"))
  | some job =>
    let job1 :=
      { job with
        status := JobStatus.processing
        attempts := msg.attempt + 1
        updatedAt := now }
    let u1 := updateJob repo job1
    match u1.2 with
    | some e => (u1.1, some (lit "mark processing: " ++ e))
    | none =>
      match buildResult ai job1.kind with
      | .error e =>
        let job2 := { job1 with status := JobStatus.failed, errorMessage := e, updatedAt := now }
        let u2 := updateJob u1.1 job2
        (u2.1, some e)
      | .ok result0 =>
        let result := maskPIIJSON result0
        let job2 :=
          { job1 with
            status := JobStatus.done
            errorMessage := []
            result := result
            updatedAt := now }
        let u3 := updateJob u1.1 job2
        match u3.2 with
        | some e => (u3.1, some (lit "mark done: " ++ e))
        | none => (u3.1, none)


/-- Job used by the C2 counterexample. -/
def c2JobA : Job :=
  ⟨lit "job-1", lit "report", lit "t1", lit "c1", lit "p1", JobStatus.pending, [], [], 0, 1, 1⟩

/-- A different job carrying the same id. -/
def c2JobB : Job := { c2JobA with payload := lit "p2" }

/-- Message used by the C8 witness. -/
def c8Msg : QueueMessage := ⟨lit "job-1", lit "summary", lit "t1", lit "c1", [], 2, 0⟩

/-- Input of the C6 counterexample: a payload that is not valid JSON, whose
digit tail is a phone match while the email-shaped head is not a match (the
trailing digits defeat the closing word boundary). -/
def c6Input : Str := lit "11111a@b.co111111111"

/-- Reads a string field from JSON body bytes. -/
def bodyStrField (body key : Str) : Option Str :=
  match parseTop body with
  | some (Json.obj fs) =>
    match getFieldLast fs key with
    | some (Json.str s) => some s
    | _ => none
  | _ => none

/-- Reads a number field (as its literal) from JSON body bytes. -/
def bodyNumField (body key : Str) : Option Str :=
  match parseTop body with
  | some (Json.obj fs) =>
    match getFieldLast fs key with
    | some (Json.num l) => some l
    | _ => none
  | _ => none

/-- Job stored for the C1 scenario. -/
def c1Job : Job :=
  ⟨lit "job-1", lit "summary", lit "t1", lit "c1", [], JobStatus.pending, [], [], 0, 5, 5⟩

/-- Repository holding only `c1Job`. -/
def c1Repo : JobsRepo := [(lit "job-1", c1Job)]

/-- Queue message for `c1Job`. -/
def c1Msg : QueueMessage := ⟨lit "job-1", lit "summary", lit "t1", lit "c1", [], 0, 0⟩

/-- AI outcomes where both generation calls fail. -/
def c1AI : AIOutcomes := ⟨.error (lit "model exploded"), .error (lit "model exploded")⟩

/-- Report job number `i` of the C5 counterexample repository. -/
def c5Job (i : Nat) : Job :=
  ⟨natToStr i, lit "report", lit "t1", lit "c1", [], JobStatus.pending, [], [], 0, (i : Int), 0⟩

/-- Repository with 21 matching report jobs. -/
def c5Repo : JobsRepo := (List.range 21).map (fun i => (natToStr i, c5Job i))

/-- Acceptable suggestion candidate: terminal punctuation and at most 321
bytes of content. -/
def sugOk (s : SugCand) : Prop := hasTerminalPunctuation s.content = true ∧ s.content.length ≤ 321

/-- Content of exactly 320 bytes without terminal punctuation. -/
def c3Content : Str := List.replicate 320 'a'

/-- Suggestion input holding the single 320-byte candidate. -/
def c3Input : SugInput := ⟨lit "pt-BR", lit "neutro", [⟨1, c3Content, []⟩]⟩

/-- Invariant of the dedupe accumulator: keys are distinct and each key is the
fingerprint of its chunk. -/
def DedupAccOk (acc : List (Str × Chunk)) : Prop :=
  (acc.map Prod.fst).Nodup ∧ ∀ kv ∈ acc, kv.1 = fingerprintOf kv.2.text

/-!
Shared lemmas about the association-list job store.
-/

/-- Storing under a key makes that key resolve to the stored job. -/

theorem repoStore_lookup (repo : JobsRepo) (k : Str) (j : Job) :
    repoLookup (repoStore repo k j) k = some j := by
  induction repo with
  | nil => simp [repoStore, repoLookup]
  | cons kv rest ih =>
    obtain ⟨k0, j0⟩ := kv
    by_cases h : (k0 == k) = true
    · simp [repoStore, repoLookup, h]
    · simp only [repoStore, h, Bool.false_eq_true, if_false]
      simp [repoLookup, h, ih]

/-- C10: `validateConversation` rejects exactly when the trimmed tenant id is
empty or longer than 64, the trimmed conversation id is empty or longer than
128, or the channel is non-empty and different from `whatsapp_web`; an empty
channel defaults to `whatsapp_web` and is accepted. -/
theorem C10_validateConversation_rejects_iff (tenantID conversationID channel : Str) :
    validateConversation tenantID conversationID channel ≠ none ↔
      (trimSpace tenantID = [] ∨ 64 < (trimSpace tenantID).length ∨
        trimSpace conversationID = [] ∨ 128 < (trimSpace conversationID).length ∨
        (channel ≠ [] ∧ channel ≠ lit "whatsapp_web")) := by
  by_cases h1 : trimSpace tenantID = [] ∨ 64 < (trimSpace tenantID).length
  · simp [validateConversation, h1]
    tauto
  · by_cases h2 : trimSpace conversationID = [] ∨ 128 < (trimSpace conversationID).length
    · simp [validateConversation, h1, h2]
      tauto
    · by_cases h3 : channel = []
      · simp [validateConversation, h1, h2, h3]
      · by_cases h4 : channel = lit "whatsapp_web"
        · simp [validateConversation, h1, h2, h3, h4]
        · simp [validateConversation, h1, h2, h3, h4]

/-- C2 counterexample: after storing `c2JobA`, `CreateJob` with `c2JobB`
(same id, different payload) returns no error and overwrites the stored job,
so the stored job for the id is changed and no rejection happens. -/
theorem C2_createJob_duplicate_not_rejected :
    (createJob (createJob [] c2JobA).1 c2JobB).2 = none ∧
      repoLookup (createJob (createJob [] c2JobA).1 c2JobB).1 (lit "job-1") = some c2JobB ∧
      c2JobB ≠ c2JobA := by decide

/-- C2 amended: `MemoryJobsRepository.CreateJob` is an unconditional upsert:
it never returns an error and afterwards the stored job for `job.id` is the
given job, whether or not the id already existed. -/
theorem C2_createJob_upserts (repo : JobsRepo) (job : Job) :
    (createJob repo job).2 = none ∧ repoLookup (createJob repo job).1 job.id = some job :=
  ⟨rfl, repoStore_lookup repo job.id job⟩

/-- C9: every payload that fails JSON decoding passes both the manual-only
screen and the content-policy screen (no violation is reported). -/
theorem C9_undecodable_payloads_pass (payload : Str) (h : parseTop payload = none) :
    validateManualOnlyPayload payload = none ∧ enforceContentPolicy payload = none := by
  constructor
  · unfold validateManualOnlyPayload
    split_ifs with ht
    · rfl
    · simp [h]
  · unfold enforceContentPolicy evaluateContentPolicy
    split_ifs with ht
    · rfl
    · simp [h]

/-- C9 witness at a concrete undecodable payload. -/
theorem C9_undecodable_payloads_pass_witness :
    parseTop (lit "oops]") = none ∧
      (validateManualOnlyPayload (lit "oops]") = none ∧
        enforceContentPolicy (lit "oops]") = none) :=
  ⟨by rfl, C9_undecodable_payloads_pass (lit "oops]") (by rfl)⟩

/-- C8: in both queue consumers a handler failure increments the attempt
counter; when the incremented attempt reaches `max_attempts` the message is
diverted to the DLQ and not republished to the main stream, otherwise it is
republished (or locally retried) with the incremented attempt; the stream
consumer acknowledges and deletes the original entry in both cases. -/
theorem C8_consumer_failure_retry_or_dlq (maxAttempts : Int) (msg : QueueMessage) (e : Str) :
    (streamsHandleMessage maxAttempts msg (some e)).ackedAndDeleted = true ∧
      (msg.attempt + 1 ≥ maxAttempts →
        streamsHandleMessage maxAttempts msg (some e) =
            ⟨some { msg with attempt := msg.attempt + 1 }, none, true⟩ ∧
          localHandleMessage maxAttempts msg (some e) =
            ⟨some { msg with attempt := msg.attempt + 1 }, none⟩) ∧
      (msg.attempt + 1 < maxAttempts →
        streamsHandleMessage maxAttempts msg (some e) =
            ⟨none, some { msg with attempt := msg.attempt + 1 }, true⟩ ∧
          localHandleMessage maxAttempts msg (some e) =
            ⟨none, some { msg with attempt := msg.attempt + 1 }⟩) := by
  refine ⟨?_, ?_, ?_⟩
  · by_cases h : msg.attempt + 1 ≥ maxAttempts <;>
      simp [streamsHandleMessage, h]
  · intro h
    constructor <;> simp [streamsHandleMessage, localHandleMessage, h]
  · intro h
    have h2 : ¬(msg.attempt + 1 ≥ maxAttempts) := not_le.mpr h
    constructor <;> simp [streamsHandleMessage, localHandleMessage, h2]

/-- C8 witness: the theorem applied at `max_attempts = 3` and a message on
its third delivery (`attempt = 2`), where the failure diverts to the DLQ. -/
theorem C8_consumer_failure_retry_or_dlq_witness :
    (streamsHandleMessage 3 c8Msg (some (lit "boom"))).ackedAndDeleted = true ∧
      (c8Msg.attempt + 1 ≥ 3 →
        streamsHandleMessage 3 c8Msg (some (lit "boom")) =
            ⟨some { c8Msg with attempt := c8Msg.attempt + 1 }, none, true⟩ ∧
          localHandleMessage 3 c8Msg (some (lit "boom")) =
            ⟨some { c8Msg with attempt := c8Msg.attempt + 1 }, none⟩) ∧
      (c8Msg.attempt + 1 < 3 →
        streamsHandleMessage 3 c8Msg (some (lit "boom")) =
            ⟨none, some { c8Msg with attempt := c8Msg.attempt + 1 }, true⟩ ∧
          localHandleMessage 3 c8Msg (some (lit "boom")) =
            ⟨none, some { c8Msg with attempt := c8Msg.attempt + 1 }⟩) :=
  C8_consumer_failure_retry_or_dlq 3 c8Msg (lit "boom")

/-- C6 counterexample: masking `c6Input` once yields
`11111a@b.co[phone_redacted]`, whose inserted bracket creates the word
boundary the email pattern needed, so the second application also masks the
email and the result differs: `MaskPIIJSON` is not idempotent. -/
theorem C6_maskPIIJSON_not_idempotent :
    maskPIIJSON (maskPIIJSON c6Input) ≠ maskPIIJSON c6Input := by decide

/-- C6 amended: `MaskPIIJSON` is idempotent on already-masked content, i.e.
on every payload it leaves unchanged; it is not idempotent on all byte
sequences (see the counterexample). -/
theorem C6_maskPIIJSON_idempotent_on_masked (payload : Str)
    (h : maskPIIJSON payload = payload) :
    maskPIIJSON (maskPIIJSON payload) = maskPIIJSON payload := by
  rw [h]
  exact h

/-- C6 witness: a concrete fixed point of the masker. -/
theorem C6_maskPIIJSON_idempotent_on_masked_witness :
    maskPIIJSON (lit "ola") = lit "ola" ∧
      maskPIIJSON (maskPIIJSON (lit "ola")) = maskPIIJSON (lit "ola") :=
  ⟨by decide, C6_maskPIIJSON_idempotent_on_masked (lit "ola") (by decide)⟩

set_option maxRecDepth 16384

/-- C7: with a nil client and a fresh (empty) cache, `GenerateSummary`
degrades to the local fallback on every build/render outcome: no error is
possible by construction, the output is `fallbackJob`, carrying
`used_fallback = true`, `model_id = "fallback-local"`, a non-empty `summary`
field and `quality_score = 0.55`. -/
theorem C7_nil_client_summary_falls_back (buildOutcome : Except Str BuildOutputM)
    (renderOutcome : Except Str Str) (input : JobGenInput) :
    (generateSummary none [] buildOutcome renderOutcome input).1 =
        fallbackJob (lit "summary") (lit "summary_v1") ∧
      (generateSummary none [] buildOutcome renderOutcome input).1.usedFallback = true ∧
      (generateSummary none [] buildOutcome renderOutcome input).1.modelID =
        lit "fallback-local" ∧
      (∃ s, bodyStrField (generateSummary none [] buildOutcome renderOutcome input).1.body
          (lit "summary") = some s ∧ s ≠ []) ∧
      bodyNumField (generateSummary none [] buildOutcome renderOutcome input).1.body
          (lit "quality_score") = some (lit "0.55") := by
  have hout : (generateSummary none [] buildOutcome renderOutcome input).1 =
      fallbackJob (lit "summary") (lit "summary_v1") := by
    cases buildOutcome <;> cases renderOutcome <;> rfl
  refine ⟨hout, ?_, ?_, ?_, ?_⟩ <;> rw [hout]
  · rfl
  · rfl
  · exact ⟨lit "Resumo gerado em modo degradado por indisponibilidade temporaria do modelo.",
      by rfl, by decide⟩
  · rfl

/-- C1 counterexample: the summary generation fails with an error, yet the
worker returns no error to the queue and persists the job as done with an
empty error message (the static fallback result), not as failed. -/
theorem C1_generation_error_job_done_counterexample :
    (processMessage (some c1AI) c1Repo c1Msg 6).2 = none ∧
      ((getJob (processMessage (some c1AI) c1Repo c1Msg 6).1 (lit "job-1")).map
        (fun j => (j.status, j.errorMessage))) = some (JobStatus.done, []) := by decide

/-- C1 amended: for every consumed message of a supported kind (summary or
report) whose AI generation step fails, the worker swallows the error: it
persists the job as done with an empty error message and the masked static
fallback result for the kind, and returns no error to the queue.  Only an
unsupported job kind marks the job failed, with the unsupported-kind error
persisted and returned. -/
theorem C1_generation_error_swallowed (ai : AIOutcomes) (repo : JobsRepo) (msg : QueueMessage)
    (job : Job) (now : Int) (e : Str)
    (hget : getJob repo msg.jobID = some job)
    (hid : job.id = msg.jobID) :
    (job.kind = lit "summary" → ai.genSummary = .error e →
      (processMessage (some ai) repo msg now).2 = none ∧
        getJob (processMessage (some ai) repo msg now).1 msg.jobID =
          some { job with
                  status := JobStatus.done
                  errorMessage := []
                  result := maskPIIJSON staticSummaryResult
                  attempts := msg.attempt + 1
                  updatedAt := now }) ∧
      (job.kind = lit "report" → ai.genReport = .error e →
        (processMessage (some ai) repo msg now).2 = none ∧
          getJob (processMessage (some ai) repo msg now).1 msg.jobID =
            some { job with
                    status := JobStatus.done
                    errorMessage := []
                    result := maskPIIJSON staticReportResult
                    attempts := msg.attempt + 1
                    updatedAt := now }) ∧
      (job.kind ≠ lit "summary" → job.kind ≠ lit "report" →
        (processMessage (some ai) repo msg now).2 =
            some (lit "unsupported job kind: " ++ job.kind) ∧
          getJob (processMessage (some ai) repo msg now).1 msg.jobID =
            some { job with
                    status := JobStatus.failed
                    errorMessage := lit "unsupported job kind: " ++ job.kind
                    attempts := msg.attempt + 1
                    updatedAt := now }) := by
  have hget2 : repoLookup repo msg.jobID = some job := hget
  refine ⟨?_, ?_, ?_⟩
  · intro hkind herr
    simp only [processMessage, getJob, updateJob, buildResult, hget2, hid, hkind, herr,
      repoStore_lookup, Except.toOption, beq_self_eq_true, if_true]
    simp
  · intro hkind herr
    have hrs : (lit "report" == lit "summary") = false := by decide
    simp only [processMessage, getJob, updateJob, buildResult, hget2, hid, hkind, herr,
      repoStore_lookup, Except.toOption, hrs, beq_self_eq_true, if_true, if_false,
      Bool.false_eq_true]
    simp
  · intro hk1 hk2
    have h1 : (job.kind == lit "summary") = false := by
      rw [beq_eq_false_iff_ne]
      exact hk1
    have h2 : (job.kind == lit "report") = false := by
      rw [beq_eq_false_iff_ne]
      exact hk2
    simp only [processMessage, getJob, updateJob, buildResult, hget2, hid, h1, h2,
      repoStore_lookup, if_false, Bool.false_eq_true]
    simp

/-- C1 witness: the summary clause of the amended theorem applied at the
concrete failing scenario. -/
theorem C1_generation_error_swallowed_witness :
    (processMessage (some c1AI) c1Repo c1Msg 6).2 = none ∧
      getJob (processMessage (some c1AI) c1Repo c1Msg 6).1 c1Msg.jobID =
        some { c1Job with
                status := JobStatus.done
                errorMessage := []
                result := maskPIIJSON staticSummaryResult
                attempts := c1Msg.attempt + 1
                updatedAt := 6 } :=
  (C1_generation_error_swallowed c1AI c1Repo c1Msg c1Job 6 (lit "model exploded")
    (by rfl) (by rfl)).1 (by rfl) (by rfl)

/-!
Lemmas about the report list sort and pagination.
-/

/-- Membership in an insertion. -/

theorem mem_insertItemDesc {z x : ReportListItem} {l : List ReportListItem} :
    z ∈ insertItemDesc x l ↔ z = x ∨ z ∈ l := by
  induction l with
  | nil => simp [insertItemDesc]
  | cons y rest ih =>
    by_cases h : x.createdAt > y.createdAt <;> simp [insertItemDesc, h, ih] <;> tauto

/-- Insertion preserves the descending created-at ordering. -/
theorem insertItemDesc_pairwise (x : ReportListItem) (l : List ReportListItem)
    (hl : l.Pairwise (fun a b => b.createdAt ≤ a.createdAt)) :
    (insertItemDesc x l).Pairwise (fun a b => b.createdAt ≤ a.createdAt) := by
  induction l with
  | nil => simp [insertItemDesc]
  | cons y rest ih =>
    have hy := List.pairwise_cons.mp hl
    by_cases h : x.createdAt > y.createdAt
    · rw [insertItemDesc, if_pos h]
      refine List.pairwise_cons.mpr ⟨?_, hl⟩
      intro z hz
      rcases List.mem_cons.mp hz with hz | hz
      · subst hz; omega
      · have := hy.1 z hz; omega
    · rw [insertItemDesc, if_neg h]
      refine List.pairwise_cons.mpr ⟨?_, ih hy.2⟩
      intro z hz
      rcases mem_insertItemDesc.mp hz with hz | hz
      · subst hz; omega
      · exact hy.1 z hz

/-- The sorted report list is ordered by created-at descending. -/
theorem sortItemsDesc_pairwise (l : List ReportListItem) :
    (sortItemsDesc l).Pairwise (fun a b => b.createdAt ≤ a.createdAt) := by
  induction l with
  | nil => simp [sortItemsDesc]
  | cons x rest ih => exact insertItemDesc_pairwise x _ ih

/-- Insertion adds one element. -/
theorem insertItemDesc_length (x : ReportListItem) (l : List ReportListItem) :
    (insertItemDesc x l).length = l.length + 1 := by
  induction l with
  | nil => rfl
  | cons y rest ih => by_cases h : x.createdAt > y.createdAt <;> simp [insertItemDesc, h, ih]

/-- Sorting preserves the length. -/
theorem sortItemsDesc_length (l : List ReportListItem) :
    (sortItemsDesc l).length = l.length := by
  induction l with
  | nil => rfl
  | cons x rest ih =>
    rw [sortItemsDesc, insertItemDesc_length, ih]
    simp

/-- Filter-map with a guard has the length of the underlying filter. -/
theorem filterMap_guard_length {α β : Type} (p : α → Bool) (f : α → β) (l : List α) :
    (l.filterMap (fun a => if p a then some (f a) else none)).length = (l.filter p).length := by
  induction l with
  | nil => rfl
  | cons a rest ih =>
    by_cases h : p a <;> simp [List.filterMap_cons, List.filter_cons, h, ih]

/-- The handler default keeps the page at least one. -/
theorem handlerPage_pos (q : Int) : 1 ≤ handlerPage q := by
  unfold handlerPage; split_ifs <;> omega

/-- The handler default keeps the page size in `[1, 100]`. -/
theorem handlerPageSize_bounds (q : Int) : 1 ≤ handlerPageSize q ∧ handlerPageSize q ≤ 100 := by
  unfold handlerPageSize
  split_ifs with h
  · omega
  · simp only [Bool.or_eq_true, decide_eq_true_eq, not_or, not_le, not_lt] at h
    omega

/-- C5 counterexample: with 21 matching reports and a requested
`page_size = 101`, the claim predicts an effective page size of 100 and hence
21 items on page one; the code resets an out-of-range page size to the
default 20 and returns 20 items (total 21). -/
theorem C5_pageSize_over_100_resets_to_default :
    (listReportsEndpoint c5Repo [] 1 101 none none []).1.length = 20 ∧
      (listReportsEndpoint c5Repo [] 1 101 none none []).2 = 21 := by decide

/-- C5 amended: `ListReports` via the handler returns items ordered by
created-at descending; the returned total is the count of matching jobs
before pagination; at most the effective page size is returned, where a
requested page size outside `[1, 100]` is replaced by the default 20 (not
clamped to 100) and a page below 1 defaults to 1. -/
theorem C5_listReports_order_total_clamp (repo : JobsRepo) (tenantID : Str)
    (page pageSize : Int) (fromT toT : Option Int) (topic : Str) :
    ((listReportsEndpoint repo tenantID page pageSize fromT toT topic).1.Pairwise
        (fun a b => b.createdAt ≤ a.createdAt)) ∧
      (listReportsEndpoint repo tenantID page pageSize fromT toT topic).2 =
        (((repo.map Prod.snd).filter (jobMatchesFilter
          ⟨trimSpace tenantID, handlerPage page, handlerPageSize pageSize, fromT, toT,
            trimSpace topic⟩)).length : Int) ∧
      ((listReportsEndpoint repo tenantID page pageSize fromT toT topic).1.length : Int) ≤
        handlerPageSize pageSize ∧
      ((pageSize ≤ 0 ∨ 100 < pageSize) → handlerPageSize pageSize = 20) := by
  have hpage := handlerPage_pos page
  have hps := handlerPageSize_bounds pageSize
  have hnp : ¬ handlerPage page ≤ 0 := by omega
  have hnps : ¬ handlerPageSize pageSize ≤ 0 := by omega
  unfold listReportsEndpoint listReports
  simp only [hnp, hnps, if_false]
  set f : ReportListFilter := ⟨trimSpace tenantID, handlerPage page, handlerPageSize pageSize,
    fromT, toT, trimSpace topic⟩ with hf
  set items := (repo.map Prod.snd).filterMap
    (fun job => if jobMatchesFilter f job then some (reportItemOf job) else none) with hitems
  set sorted := sortItemsDesc items with hsorted
  have hlen : sorted.length = ((repo.map Prod.snd).filter (jobMatchesFilter f)).length := by
    rw [hsorted, sortItemsDesc_length, hitems, filterMap_guard_length]
  have hsortp := sortItemsDesc_pairwise items
  by_cases hstart : (handlerPage page - 1) * handlerPageSize pageSize ≥ (sorted.length : Int)
  · simp only [if_pos hstart]
    refine ⟨by simp, by rw [hlen], by simp; omega, fun h => by unfold handlerPageSize; simp [h]⟩
  · simp only [if_neg hstart]
    refine ⟨?_, by rw [hlen], ?_, fun h => by
      unfold handlerPageSize
      split_ifs with hc
      · rfl
      · simp only [Bool.or_eq_true, decide_eq_true_eq, not_or, not_le, not_lt] at hc
        rcases h with h | h <;> omega⟩
    · exact List.Pairwise.sublist ((List.take_sublist _ _).trans (List.drop_sublist _ _)) hsortp
    · have hkt := List.length_take_le
        (min ((handlerPage page - 1) * handlerPageSize pageSize + handlerPageSize pageSize)
          (sorted.length : Int) - (handlerPage page - 1) * handlerPageSize pageSize).toNat
        (sorted.drop ((handlerPage page - 1) * handlerPageSize pageSize).toNat)
      have : ((sorted.drop ((handlerPage page - 1) * handlerPageSize pageSize).toNat).take
          (min ((handlerPage page - 1) * handlerPageSize pageSize + handlerPageSize pageSize)
            (sorted.length : Int) - (handlerPage page - 1) * handlerPageSize pageSize).toNat).length ≤
          (min ((handlerPage page - 1) * handlerPageSize pageSize + handlerPageSize pageSize)
            (sorted.length : Int) - (handlerPage page - 1) * handlerPageSize pageSize).toNat :=
        hkt
      omega

/-!
Bound lemmas for the quality validator.
-/

/-- Dropping a prefix never lengthens a list. -/

theorem length_dropWhile_le (p : Char → Bool) (l : Str) : (l.dropWhile p).length ≤ l.length := by
  induction l with
  | nil => simp [List.dropWhile]
  | cons c rest ih =>
    by_cases h : p c <;> simp [List.dropWhile_cons, h] <;> omega

/-- Trimming never lengthens a string. -/
theorem trimSpace_length_le (s : Str) : (trimSpace s).length ≤ s.length := by
  unfold trimSpace
  calc ((s.dropWhile goIsSpace).reverse.dropWhile goIsSpace).reverse.length
      = ((s.dropWhile goIsSpace).reverse.dropWhile goIsSpace).length := by
        rw [List.length_reverse]
    _ ≤ (s.dropWhile goIsSpace).reverse.length := length_dropWhile_le _ _
    _ = (s.dropWhile goIsSpace).length := by rw [List.length_reverse]
    _ ≤ s.length := length_dropWhile_le _ _

/-- The word-boundary truncation never exceeds the requested byte budget. -/
theorem truncateAtWord_length_le (v : Str) (maxLen : Int) (hpos : 0 < maxLen) :
    ((truncateAtWord v maxLen).length : Int) ≤ maxLen := by
  simp only [truncateAtWord]
  split_ifs with h1 h2
  · simp only [Bool.or_eq_true, decide_eq_true_eq] at h1
    rcases h1 with h1 | h1
    · exact h1
    · omega
  · have hc : (v.take maxLen.toNat).length ≤ maxLen.toNat := List.length_take_le _ _
    have ht := trimSpace_length_le ((v.take maxLen.toNat).take
      (lastIdxOf (v.take maxLen.toNat) ' ').toNat)
    have hc2 : ((v.take maxLen.toNat).take (lastIdxOf (v.take maxLen.toNat) ' ').toNat).length ≤
        (v.take maxLen.toNat).length := by
      rw [List.length_take]
      exact min_le_right _ _
    omega
  · have hc : (v.take maxLen.toNat).length ≤ maxLen.toNat := List.length_take_le _ _
    have ht := trimSpace_length_le (v.take maxLen.toNat)
    omega

/-- One loop step either leaves the output untouched or appends a candidate
that ends with terminal punctuation and is at most 321 bytes long. -/
theorem sugStep_output_shape (tone locale : Str) (item : SugCand) (st : SugLoopState) :
    (sugStep tone locale item st).1.output = st.output ∨
      ∃ content rationale,
        (sugStep tone locale item st).1.output =
            st.output ++ [⟨(st.output.length : Int) + 1, content, rationale⟩] ∧
          hasTerminalPunctuation content = true ∧ content.length ≤ 321 := by
  unfold sugStep
  by_cases h0 : normalizeText item.content = []
  · rw [if_pos h0]
    exact Or.inl rfl
  · rw [if_neg h0]
    set masked := maskPIIString (normalizeText item.content) with hm
    set content2 := if (masked.length : Int) > 320 then truncateAtWord masked 320 else masked
      with hc2
    have hlen2 : content2.length ≤ 320 := by
      rw [hc2]
      split_ifs with ht
      · have := truncateAtWord_length_le masked 320 (by omega)
        omega
      · omega
    set needDot := !hasTerminalPunctuation content2 with hd
    set content3 := if needDot then content2 ++ ['.'] else content2 with hc3
    have hp3 : hasTerminalPunctuation content3 = true := by
      rw [hc3]
      by_cases hdot : needDot = true
      · rw [if_pos hdot]
        unfold hasTerminalPunctuation
        rw [List.getLast?_concat]
        rfl
      · rw [if_neg hdot]
        rw [hd] at hdot
        cases hx : hasTerminalPunctuation content2
        · rw [hx] at hdot
          simp at hdot
        · rfl
    have hl3 : content3.length ≤ 321 := by
      rw [hc3]
      split_ifs
      · simp only [List.length_append, List.length_cons, List.length_nil]
        omega
      · omega
    by_cases hdup : st.seen.contains (toLowerStr content3) = true
    · rw [if_pos hdup]
      exact Or.inl rfl
    · rw [if_neg hdup]
      exact Or.inr ⟨content3, _, rfl, hp3, hl3⟩

/-- The loop preserves `sugOk` over its accumulated output. -/
theorem sugLoop_preserves (tone locale : Str) (items : List SugCand) (st : SugLoopState)
    (hst : ∀ s ∈ st.output, sugOk s) :
    ∀ s ∈ (sugLoop tone locale items st).output, sugOk s := by
  induction items generalizing st with
  | nil => exact hst
  | cons item rest ih =>
    have hpres : ∀ s ∈ (sugStep tone locale item st).1.output, sugOk s := by
      rcases sugStep_output_shape tone locale item st with h | ⟨c, r, h, hp, hl⟩
      · rw [h]; exact hst
      · rw [h]
        intro s hs
        rcases List.mem_append.mp hs with hs | hs
        · exact hst s hs
        · rcases List.mem_singleton.mp hs with rfl
          exact ⟨hp, hl⟩
    rw [sugLoop]
    by_cases hb : (sugStep tone locale item st).2 = true
    · simp only [hb, if_true]
      exact hpres
    · simp only [hb, if_false, Bool.false_eq_true]
      exact ih _ hpres

/-- Action-item loop bound: every accumulated item stays within 220 bytes. -/
theorem summaryItemsLoop_bound (items : List Str) :
    ∀ (seen acc : List Str) (p : Int), (∀ x ∈ acc, x.length ≤ 220) →
      ∀ x ∈ (summaryItemsLoop items seen acc p).1, x.length ≤ 220 := by
  induction items with
  | nil => intro seen acc p hacc; exact hacc
  | cons item rest ih =>
    intro seen acc p hacc
    have key : ∀ (n2 : Str), n2.length ≤ 220 → ∀ (p2 : Int),
        ∀ x ∈ (if seen.contains (toLowerStr n2) = true then summaryItemsLoop rest seen acc p2
          else if (acc ++ [n2]).length ≥ 10 then (acc ++ [n2], p2)
          else summaryItemsLoop rest (toLowerStr n2 :: seen) (acc ++ [n2]) p2).1,
          x.length ≤ 220 := by
      intro n2 hb p2
      have hacc2 : ∀ x ∈ acc ++ [n2], x.length ≤ 220 := by
        intro x hx
        rcases List.mem_append.mp hx with hx | hx
        · exact hacc x hx
        · rcases List.mem_singleton.mp hx with rfl
          exact hb
      by_cases hdup : seen.contains (toLowerStr n2) = true
      · simp only [if_pos hdup]
        exact ih _ _ _ hacc
      · simp only [if_neg hdup]
        by_cases hbr : (acc ++ [n2]).length ≥ 10
        · simp only [if_pos hbr]
          exact hacc2
        · simp only [if_neg hbr]
          exact ih _ _ _ hacc2
    simp only [summaryItemsLoop]
    by_cases h0 : normalizeText (maskPIIString item) = []
    · simp only [if_pos h0]
      exact ih seen acc _ hacc
    · simp only [if_neg h0]
      by_cases ht : ((normalizeText (maskPIIString item)).length : Int) > 220
      · simp only [if_pos ht]
        refine key _ ?_ _
        have := truncateAtWord_length_le (normalizeText (maskPIIString item)) 220 (by omega)
        omega
      · simp only [if_neg ht]
        exact key _ (by omega) _

/-- Section loop bound: at most eight sections accumulate. -/
theorem reportSectionsLoop_len (locale : Str) (xs : List (Str × Str)) :
    ∀ (acc : List (Str × Str)) (p : Int), acc.length ≤ 7 →
      (reportSectionsLoop locale xs acc p).1.length ≤ 8 := by
  induction xs with
  | nil =>
    intro acc p hacc
    simp only [reportSectionsLoop]
    omega
  | cons x rest ih =>
    intro acc p hacc
    obtain ⟨h0, c0⟩ := x
    simp only [reportSectionsLoop]
    by_cases hblank : normalizeText (maskPIIString h0) = [] ∨ normalizeText (maskPIIString c0) = []
    · simp only [if_pos hblank]
      exact ih acc _ hacc
    · simp only [if_neg hblank]
      split_ifs with h1 h2 h3 h4 h5 h6 h7 <;>
        first
          | (simp only [List.length_append, List.length_cons, List.length_nil] at *
             omega)
          | (refine ih _ _ ?_
             simp only [not_le, List.length_append, List.length_cons, List.length_nil] at *
             omega)

/-- C3 counterexample: the 320-byte candidate is not truncated (the cap only
fires above 320 bytes), and the appended period then pushes the returned
content to 321 bytes, exceeding the claimed 320-byte bound. -/
theorem C3_returned_suggestion_exceeds_320 :
    (match validateSuggestions c3Input with
      | .ok r => r.suggestions.map (fun s => s.content.length)
      | .error _ => []) = [321] := by decide

set_option maxHeartbeats 1600000

/-- C3 amended: every returned suggestion ends with terminal punctuation and
is at most 321 bytes long (truncation to 320 happens before the period is
appended, so one extra byte is possible); every returned summary action item
is at most 220 bytes; the report validator returns at most 8 sections. -/
theorem C3_validator_output_bounds :
    (∀ input r, validateSuggestions input = .ok r → ∀ s ∈ r.suggestions,
        hasTerminalPunctuation s.content = true ∧ s.content.length ≤ 321) ∧
      (∀ body locale out, validateSummaryCore body locale = .ok out →
        ∀ item ∈ out.2.1, item.length ≤ 220) ∧
      (∀ body locale out, validateReportCore body locale = .ok out →
        out.2.1.length ≤ 8) := by
  refine ⟨?_, ?_, ?_⟩
  · intro input r h s hs
    simp only [validateSuggestions] at h
    split_ifs at h <;> try exact (Except.noConfusion h)
    all_goals cases h
    all_goals exact sugLoop_preserves _ _ _ _ (by intro x hx; cases hx) s hs
  · intro body locale out h
    unfold validateSummaryCore at h
    cases hfs : objFieldsOf body with
    | error e => simp only [hfs] at h; exact (Except.noConfusion h)
    | ok fs =>
      simp only [hfs] at h
      cases h1 : decodeStrField (getFieldLast fs (lit "summary")) with
      | error e => simp only [h1] at h; exact (Except.noConfusion h)
      | ok summaryRaw =>
        cases h2 : decodeStrList (getFieldLast fs (lit "action_items")) with
        | error e => simp only [h1, h2] at h; exact (Except.noConfusion h)
        | ok items =>
          cases h3 : decodeStrField (getFieldLast fs (lit "prompt_version")) with
          | error e => simp only [h1, h2, h3] at h; exact (Except.noConfusion h)
          | ok promptVersion =>
            cases h4 : decodeStrField (getFieldLast fs (lit "model_id")) with
            | error e => simp only [h1, h2, h3, h4] at h; exact (Except.noConfusion h)
            | ok modelID =>
              simp only [h1, h2, h3, h4] at h
              split_ifs at h <;> try exact (Except.noConfusion h)
              all_goals cases h
              all_goals exact summaryItemsLoop_bound _ _ _ _ (by intro x hx; cases hx)
  · intro body locale out h
    unfold validateReportCore at h
    cases hfs : objFieldsOf body with
    | error e => simp only [hfs] at h; exact (Except.noConfusion h)
    | ok fs =>
      simp only [hfs] at h
      cases h1 : decodeStrField (getFieldLast fs (lit "title")) with
      | error e => simp only [h1] at h; exact (Except.noConfusion h)
      | ok titleRaw =>
        cases h2 : decodeSections (getFieldLast fs (lit "sections")) with
        | error e => simp only [h1, h2] at h; exact (Except.noConfusion h)
        | ok sections0 =>
          cases h3 : decodeStrField (getFieldLast fs (lit "prompt_version")) with
          | error e => simp only [h1, h2, h3] at h; exact (Except.noConfusion h)
          | ok promptVersion =>
            cases h4 : decodeStrField (getFieldLast fs (lit "model_id")) with
            | error e => simp only [h1, h2, h3, h4] at h; exact (Except.noConfusion h)
            | ok modelID =>
              simp only [h1, h2, h3, h4] at h
              split_ifs at h <;> try exact (Except.noConfusion h)
              all_goals cases h
              all_goals exact reportSectionsLoop_len _ _ _ _ (by simp)

/-- C3 witness: the amended suggestion bound instantiated at the concrete run
that returns the 321-byte suggestion. -/
theorem C3_validator_output_bounds_witness :
    hasTerminalPunctuation (c3Content ++ ['.']) = true ∧ (c3Content ++ ['.']).length ≤ 321 :=
  C3_validator_output_bounds.1 c3Input ⟨[⟨1, c3Content ++ ['.'], []⟩], 100, true⟩ (by rfl)
    ⟨1, c3Content ++ ['.'], []⟩ (List.mem_cons_self _ _)

/-- A key that misses the accumulator is not among its keys. -/
theorem assocGetChunk_none (acc : List (Str × Chunk)) (key : Str)
    (h : assocGetChunk acc key = none) : key ∉ acc.map Prod.fst := by
  induction acc with
  | nil => simp
  | cons kv rest ih =>
    obtain ⟨k, c⟩ := kv
    simp only [assocGetChunk] at h
    by_cases hk : k = key
    · simp only [hk, beq_self_eq_true, if_true] at h
      exact Option.noConfusion h
    · rw [if_neg (by simp [hk])] at h
      simp only [List.map_cons, List.mem_cons]
      rintro (h1 | h1)
      · exact hk h1.symm
      · exact ih h h1

/-- Members after an in-place update are old members or the new pair. -/
theorem mem_assocSetChunk (acc : List (Str × Chunk)) (key : Str) (c : Chunk)
    (kv : Str × Chunk) (h : kv ∈ assocSetChunk acc key c) : kv ∈ acc ∨ kv = (key, c) := by
  induction acc with
  | nil =>
    simp only [assocSetChunk, List.mem_singleton] at h
    exact Or.inr h
  | cons kv0 rest ih =>
    obtain ⟨k0, c0⟩ := kv0
    simp only [assocSetChunk] at h
    by_cases hk : k0 = key
    · rw [if_pos (by simp [hk])] at h
      rcases List.mem_cons.mp h with h1 | h1
      · exact Or.inr h1
      · exact Or.inl (List.mem_cons_of_mem _ h1)
    · rw [if_neg (by simp [hk])] at h
      rcases List.mem_cons.mp h with h1 | h1
      · exact Or.inl (h1 ▸ List.mem_cons_self _ _)
      · rcases ih h1 with h2 | h2
        · exact Or.inl (List.mem_cons_of_mem _ h2)
        · exact Or.inr h2

/-- Updating an existing key leaves the key list unchanged. -/
theorem assocSetChunk_map_fst (acc : List (Str × Chunk)) (key : Str) (c e : Chunk)
    (h : assocGetChunk acc key = some e) :
    (assocSetChunk acc key c).map Prod.fst = acc.map Prod.fst := by
  induction acc with
  | nil => simp [assocGetChunk] at h
  | cons kv0 rest ih =>
    obtain ⟨k0, c0⟩ := kv0
    simp only [assocGetChunk] at h
    simp only [assocSetChunk]
    by_cases hk : k0 = key
    · rw [if_pos (by simp [hk])]
      simp [hk]
    · rw [if_neg (by simp [hk])]
      rw [if_neg (by simp [hk])] at h
      simp [ih h]

/-- The dedupe loop preserves the accumulator invariant. -/
theorem dedupeLoop_ok (cs : List Chunk) :
    ∀ acc, DedupAccOk acc → DedupAccOk (dedupeLoop cs acc) := by
  induction cs with
  | nil => intro acc hacc; exact hacc
  | cons c rest ih =>
    intro acc hacc
    simp only [dedupeLoop]
    split
    case h_1 hget =>
      refine ih _ ⟨?_, ?_⟩
      · have hnot := assocGetChunk_none acc _ hget
        simp only [List.map_append, List.map_cons, List.map_nil]
        simp [List.nodup_append, hacc.1, hnot]
      · intro kv hkv
        rcases List.mem_append.mp hkv with h1 | h1
        · exact hacc.2 kv h1
        · simp only [List.mem_singleton] at h1
          rw [h1]
    case h_2 existing hget =>
      by_cases hscore : existing.score < c.score
      · rw [if_pos hscore]
        refine ih _ ⟨?_, ?_⟩
        · rw [assocSetChunk_map_fst acc _ c existing hget]
          exact hacc.1
        · intro kv hkv
          rcases mem_assocSetChunk acc _ c kv hkv with h1 | h1
          · exact hacc.2 kv h1
          · rw [h1]
      · rw [if_neg hscore]
        exact ih _ hacc

/-- Distinct keys plus the key-fingerprint relation give pairwise-distinct
fingerprints of the stored chunks. -/
theorem dedupeAcc_pairwise (acc : List (Str × Chunk)) (hnd : (acc.map Prod.fst).Nodup)
    (hrel : ∀ kv ∈ acc, kv.1 = fingerprintOf kv.2.text) :
    (acc.map (fun kv => kv.2)).Pairwise
      (fun a b => fingerprintOf a.text ≠ fingerprintOf b.text) := by
  induction acc with
  | nil => simp
  | cons kv rest ih =>
    simp only [List.map_cons, List.pairwise_cons]
    simp only [List.map_cons, List.nodup_cons] at hnd
    refine ⟨?_, ih hnd.2 (fun x hx => hrel x (List.mem_cons_of_mem _ hx))⟩
    intro b hb heq
    rcases List.mem_map.mp hb with ⟨kvb, hkvb, hb2⟩
    have h1 : kv.1 = fingerprintOf kv.2.text := hrel kv (List.mem_cons_self _ _)
    have h2 : kvb.1 = fingerprintOf kvb.2.text := hrel kvb (List.mem_cons_of_mem _ hkvb)
    have hkey : kv.1 = kvb.1 := by
      rw [← hb2] at heq
      exact h1.trans (heq.trans h2.symm)
    refine hnd.1 ?_
    rw [hkey]
    exact List.mem_map_of_mem Prod.fst hkvb

/-- The deduped chunk list has pairwise-distinct fingerprints. -/
theorem dedupeChunks_pairwise (chunks : List Chunk) :
    (dedupeChunks chunks).Pairwise (fun a b => fingerprintOf a.text ≠ fingerprintOf b.text) := by
  by_cases hlen : chunks.length ≤ 1
  · rw [dedupeChunks, if_pos hlen]
    cases chunks with
    | nil => simp
    | cons c rest =>
      cases rest with
      | nil => simp
      | cons d rest2 => simp at hlen
  · rw [dedupeChunks, if_neg hlen]
    have h := dedupeLoop_ok chunks [] ⟨List.nodup_nil, by intro kv hkv; cases hkv⟩
    exact dedupeAcc_pairwise _ h.1 h.2

/-- Insertion permutes. -/
theorem insertChunk_perm (c : Chunk) (l : List Chunk) : List.Perm (insertChunk c l) (c :: l) := by
  induction l with
  | nil => exact List.Perm.refl _
  | cons d rest ih =>
    simp only [insertChunk]
    by_cases h : lessChunk c d = true
    · rw [if_pos h]
    · rw [if_neg h]
      exact (ih.cons d).trans (List.Perm.swap c d rest)

/-- The stable sort permutes its input. -/
theorem sortChunks_perm (l : List Chunk) : List.Perm (sortChunks l) l := by
  induction l with
  | nil => exact List.Perm.refl _
  | cons c rest ih =>
    exact (insertChunk_perm c (sortChunks rest)).trans (ih.cons c)

/-- Sorting preserves pairwise-distinct fingerprints. -/
theorem sortChunks_pairwise (l : List Chunk)
    (h : l.Pairwise (fun a b => fingerprintOf a.text ≠ fingerprintOf b.text)) :
    (sortChunks l).Pairwise (fun a b => fingerprintOf a.text ≠ fingerprintOf b.text) := by
  refine (List.Perm.pairwise_iff ?_ (sortChunks_perm l)).mpr h
  intro x y hxy he
  exact hxy he.symm

/-- The selection loop appends a sublist of its input to the accumulator. -/
theorem selectLoop_shape (maxTok maxCh : Int) (cs : List Chunk) :
    ∀ sel tot, ∃ s, s.Sublist cs ∧ (selectLoop maxTok maxCh cs sel tot).1 = sel ++ s := by
  induction cs with
  | nil => intro sel tot; exact ⟨[], List.Sublist.refl _, by simp [selectLoop]⟩
  | cons c rest ih =>
    intro sel tot
    simp only [selectLoop]
    by_cases h1 : estimateTokens c.text = 0
    · rw [if_pos h1]
      obtain ⟨s, hs, he⟩ := ih sel tot
      exact ⟨s, hs.cons c, he⟩
    · rw [if_neg h1]
      by_cases h2 : (tot : Int) + estimateTokens c.text > maxTok
      · rw [if_pos h2]
        obtain ⟨s, hs, he⟩ := ih sel tot
        exact ⟨s, hs.cons c, he⟩
      · rw [if_neg h2]
        by_cases h3 : ((sel ++ [c]).length : Int) ≥ maxCh
        · rw [if_pos h3]
          exact ⟨[c], (List.nil_sublist rest).cons₂ c, rfl⟩
        · rw [if_neg h3]
          obtain ⟨s, hs, he⟩ := ih (sel ++ [c]) (tot + estimateTokens c.text)
          exact ⟨c :: s, hs.cons₂ c, by rw [he, List.append_assoc]; rfl⟩

/-- The selection loop never exceeds the chunk-count budget. -/
theorem selectLoop_length (maxTok maxCh : Int) (cs : List Chunk) :
    ∀ sel tot, (sel.length : Int) < maxCh →
      (((selectLoop maxTok maxCh cs sel tot).1.length : Int)) ≤ maxCh := by
  induction cs with
  | nil =>
    intro sel tot h
    simp only [selectLoop]
    omega
  | cons c rest ih =>
    intro sel tot h
    simp only [selectLoop]
    by_cases h1 : estimateTokens c.text = 0
    · rw [if_pos h1]; exact ih sel tot h
    · rw [if_neg h1]
      by_cases h2 : (tot : Int) + estimateTokens c.text > maxTok
      · rw [if_pos h2]; exact ih sel tot h
      · rw [if_neg h2]
        by_cases h3 : ((sel ++ [c]).length : Int) ≥ maxCh
        · rw [if_pos h3]
          simp only [List.length_append, List.length_cons, List.length_nil]
          push_cast
          omega
        · rw [if_neg h3]
          exact ih _ _ (by omega)

/-- The selection loop never exceeds the token budget. -/
theorem selectLoop_tokens (maxTok maxCh : Int) (cs : List Chunk) :
    ∀ (sel : List Chunk) (tot : Nat), (tot : Int) ≤ maxTok →
      (((selectLoop maxTok maxCh cs sel tot).2 : Int)) ≤ maxTok := by
  induction cs with
  | nil => intro sel tot h; exact h
  | cons c rest ih =>
    intro sel tot h
    simp only [selectLoop]
    by_cases h1 : estimateTokens c.text = 0
    · rw [if_pos h1]; exact ih sel tot h
    · rw [if_neg h1]
      by_cases h2 : (tot : Int) + estimateTokens c.text > maxTok
      · rw [if_pos h2]; exact ih sel tot h
      · rw [if_neg h2]
        by_cases h3 : ((sel ++ [c]).length : Int) ≥ maxCh
        · rw [if_pos h3]
          push_cast
          push_cast at h2
          omega
        · rw [if_neg h3]
          refine ih _ _ ?_
          push_cast
          push_cast at h2
          omega

/-- The normalized token budget is positive. -/
theorem normalize_mit_pos (task : Str) (b : BuildBudget) :
    0 < (normalizeBuildInput task b).maxInputTokens := by
  simp only [normalizeBuildInput]
  split_ifs <;> omega

/-- The normalized chunk-count budget is positive. -/
theorem normalize_mc_pos (task : Str) (b : BuildBudget) :
    0 < (normalizeBuildInput task b).maxChunks := by
  simp only [normalizeBuildInput]
  split_ifs <;> omega

/-- C4 counterexample: with a caller-supplied token budget of 1 (kept by
normalization since it is positive) and an empty retrieval, the fallback path
reports 19 tokens, exceeding the claimed `max_input_tokens` bound. -/
theorem C4_fallback_exceeds_token_budget :
    (normalizeBuildInput (lit "summary") ⟨1, 5, 20⟩).maxInputTokens = 1 ∧
      (buildFromChunks [] (lit "summary") ⟨1, 5, 20⟩).tokenCount = 19 := by decide

/-- C4 amended: `Build` always returns a non-empty chunk list with pairwise
distinct dedup fingerprints and at most `max_chunks` entries, and the token
count stays within `max_input_tokens` except on the fallback path, whose
static chunk fixes the count at the fallback estimate — hence the bound is
the maximum of the two. -/
theorem C4_build_invariants (retrieved : List Chunk) (task : Str) (budget : BuildBudget) :
    (buildFromChunks retrieved task budget).chunks ≠ [] ∧
      (buildFromChunks retrieved task budget).chunks.Pairwise
        (fun a c => fingerprintOf a.text ≠ fingerprintOf c.text) ∧
      ((buildFromChunks retrieved task budget).chunks.length : Int) ≤
        (normalizeBuildInput task budget).maxChunks ∧
      ((buildFromChunks retrieved task budget).tokenCount : Int) ≤
        max (normalizeBuildInput task budget).maxInputTokens
          ((estimateTokens fallbackContextText : Nat) : Int) := by
  simp only [buildFromChunks]
  by_cases hemp :
      (selectLoop (normalizeBuildInput task budget).maxInputTokens
        (normalizeBuildInput task budget).maxChunks
        (sortChunks (dedupeChunks retrieved)) [] 0).1 = []
  · rw [if_pos hemp, if_pos hemp]
    refine ⟨by simp, by simp, ?_, le_max_right _ _⟩
    have hmc := normalize_mc_pos task budget
    simp only [List.length_cons, List.length_nil]
    omega
  · rw [if_neg hemp, if_neg hemp]
    refine ⟨hemp, ?_, ?_, ?_⟩
    · obtain ⟨s, hs, he⟩ :=
        selectLoop_shape (normalizeBuildInput task budget).maxInputTokens
          (normalizeBuildInput task budget).maxChunks (sortChunks (dedupeChunks retrieved)) [] 0
      rw [he, List.nil_append]
      exact (sortChunks_pairwise _ (dedupeChunks_pairwise retrieved)).sublist hs
    · refine selectLoop_length _ _ _ [] 0 ?_
      have hmc := normalize_mc_pos task budget
      simpa using hmc
    · refine le_trans (selectLoop_tokens _ _ _ [] 0 ?_) (le_max_left _ _)
      have hmit := normalize_mit_pos task budget
      simpa using le_of_lt hmit
